import Mathlib

/-!
The wire-format codec of mqttgo.

A shallow embedding of the Go package `mqttgo` (files `encoding.go`,
`header.go`, `mqttgo.go`) and theorems about it.

Conventions of the embedding
* a Go `byte` is a `Nat` below 256, a `uint32` a `Nat` below `2^32`; every
  operation that can leave the width is followed by an explicit `% 2^w`;
* a Go `string` / `[]byte` is the list of its bytes;
* an `io.Reader` is an in-memory byte stream (the unread bytes), optionally
  wrapped in an `io.LimitedReader`; an `io.Writer` is the list of bytes written
  so far (a `bytes.Buffer`, whose writes never fail);
* a Go `error` result is an `Option Error`, `none` being `nil`.
-/

namespace mqttgo

/-! ## Errors -/

/-- The error values the package can return. -/
inductive Error where
  /-- Go `io.EOF` -/
  | EOF
  /-- Go `io.ErrUnexpectedEOF` -/
  | ErrUnexpectedEOF
  /-- Go `errors.New("readLen4: Bad format reading len4")` -/
  | readLen4BadFormat
  /-- Go `errors.New("len4.bytes: len4 value out of range")` -/
  | len4OutOfRange
  | ErrBadMsgType
  | ErrBadQosLevel
  | ErrTooLong
  | ErrBadRC
  | ErrWrongLength
  deriving DecidableEq, Repr

/-! ## Readers and writers -/

/-- An `io.Reader`: the unread bytes of an in-memory stream, read either directly
(`N = none`) or through an `io.LimitedReader` with `N` bytes left (`N = some n`). -/
structure Reader where
  data : List Nat
  N : Option Nat
  deriving DecidableEq, Repr

/-- The bytes a reader can still deliver. -/
def Reader.avail (r : Reader) : List Nat :=
  match r.N with
  | none => r.data
  | some n => r.data.take n

/-- The reader after `k` bytes have been read from it. -/
def Reader.advance (r : Reader) (k : Nat) : Reader :=
  { data := r.data.drop k, N := r.N.map (fun n => n - k) }

/-- Go `io.ReadFull(r, buf)` with `len(buf) = n`: the `n` bytes read, or `io.EOF` when no
byte could be read, or `io.ErrUnexpectedEOF` when the stream ended after some bytes. -/
def ReadFull (r : Reader) (n : Nat) : Except Error (List Nat) × Reader :=
  if n = 0 then (Except.ok [], r)
  else if n ≤ r.avail.length then (Except.ok (r.avail.take n), r.advance n)
  else if r.avail.length = 0 then (Except.error Error.EOF, r)
  else (Except.error Error.ErrUnexpectedEOF, r.advance r.avail.length)

/-- An `io.Writer` that never fails: the bytes written so far. -/
abbrev Writer := List Nat

/-- Go `w.Write(p)` -/
def Writer.Write (w : Writer) (p : List Nat) : Writer := w ++ p

/-! ## encoding.go: len4 -/

/-- Go `type len4 uint32` -/
abbrev len4 := Nat

/-- The loop of `readLen4`; `i` is the number of iterations left. -/
def readLen4Loop : Nat → Nat → Nat → Reader → (Nat × Option Error) × Reader
  | 0, val, _, r => ((val, some Error.readLen4BadFormat), r)
  | i + 1, val, shift, r =>
    match ReadFull r 1 with
    | (Except.error err, r1) => ((val, some err), r1)
    | (Except.ok buf, r1) =>
      let b := buf.headD 0
      let val1 := val ||| (((b &&& 0x7f) <<< shift) % 2 ^ 32)
      if b &&& 0x80 = 0 then ((val1, none), r1)
      else readLen4Loop i val1 (shift + 7) r1

/-- Go `readLen4`: read from an `io.Reader` and decode as len4. -/
def readLen4 (r : Reader) : (Nat × Option Error) × Reader :=
  readLen4Loop 4 0 0 r

/-- The loop of `len4.bytes`; `i` is the number of iterations left, `p` the buffer. -/
def len4.bytesLoop : Nat → Nat → List Nat → List Nat × Option Error
  | 0, _, _ => ([], some Error.len4OutOfRange)
  | i + 1, l, p =>
    let digit := l &&& 0x7f
    let l1 := l >>> 7
    if l1 > 0 then
      let digit1 := digit ||| 0x80
      len4.bytesLoop i l1 (p ++ [digit1 % 256])
    else (p, none)

/-- Go `len4.bytes`: encode len4. -/
def len4.bytes (l : len4) : List Nat × Option Error :=
  if l = 0 then ([0], none)
  else len4.bytesLoop 4 l []

/-- Go `len4.writeTo`: write the encoded len4 to an `io.Writer`. -/
def len4.writeTo (l : len4) (w : Writer) : Option Error × Writer :=
  match len4.bytes l with
  | (_, some err) => (some err, w)
  | (p, none) => (none, w.Write p)

/-! ## encoding.go: str -/

/-- Go `readStr`: read from an `io.Reader` and decode as str. -/
def readStr (r : Reader) : (List Nat × Option Error) × Reader :=
  match readLen4 r with
  | ((_, some err), r1) => (([], some err), r1)
  | ((l, none), r1) =>
    match ReadFull r1 l with
    | (Except.error err, r2) => (([], some err), r2)
    | (Except.ok p, r2) => ((p, none), r2)

/-- Go `str.writeTo`: write the encoded str to an `io.Writer`. -/
def str.writeTo (s : List Nat) (w : Writer) : Option Error × Writer :=
  let l : len4 := s.length % 2 ^ 32
  match len4.writeTo l w with
  | (some err, w1) => (some err, w1)
  | (none, w1) => (none, w1.Write s)

/-! ## encoding.go: bit helpers -/

/-- Subtraction on Go's `uint` (64 bits wide): wraps around below zero. -/
def usub (a b : Nat) : Nat := (a + 2 ^ 64 - b % 2 ^ 64) % 2 ^ 64

/-- Go `f << s` on a `byte`: the result is cut to 8 bits, a count of 8 or more gives 0. -/
def shlByte (f s : Nat) : Nat := if s < 8 then (f <<< s) % 256 else 0

/-- Go `f >> s` on a `byte`; a count of 8 or more gives 0. -/
def shrByte (f s : Nat) : Nat := if s < 8 then f >>> s else 0

/-- Go `^f` on a `byte`. -/
def notByte (f : Nat) : Nat := 0xff ^^^ f

/-- Go `get1Bit`: gets one bit in a byte and returns as bool. -/
def get1Bit (f mask : Nat) : Bool := (f &&& mask) != 0

/-- Go `set1Bit`: sets one bit in a byte. The body uses the constant `0x08`, not `mask`. -/
def set1Bit (f : Nat) (v : Bool) (_mask : Nat) : Nat :=
  let f1 := f &&& notByte 0x08
  if v then f1 ||| 0x08 else f1

/-- Go `get2Bits`: gets two bits in a byte and returns as byte. -/
def get2Bits (f : Nat) (frm : Nat) : Nat :=
  shrByte (shlByte f (usub 6 frm)) 6

/-- Go `set2Bits`: sets two bits in a byte. -/
def set2Bits (f : Nat) (val : Nat) (frm : Nat) : Nat :=
  let mask := notByte (shrByte (shlByte 0xff (usub 6 frm)) 6)
  (f &&& mask) ||| shlByte val frm

/-! ## mqttgo.go: message types and QoS levels -/

/-- Go `type MsgType uint8` -/
abbrev MsgType := Nat

def MsgTypeConnect : MsgType := 1
def MsgTypeConnAck : MsgType := 2
def MsgTypePublish : MsgType := 3
def MsgTypePubAck : MsgType := 4
def MsgTypePubRec : MsgType := 5
def MsgTypePubRel : MsgType := 6
def MsgTypePubComp : MsgType := 7
def MsgTypeSubscribe : MsgType := 8
def MsgTypeSubAck : MsgType := 9
def MsgTypeUnsubscribe : MsgType := 10
def MsgTypeUnsubAck : MsgType := 11
def MsgTypePingReq : MsgType := 12
def MsgTypePingResp : MsgType := 13
def MsgTypeDisconnect : MsgType := 14
def MsgTypeInvaild : MsgType := 15

/-- Go `MsgType.Valid` -/
def MsgType.Valid (t : MsgType) : Bool := decide (t ≤ MsgTypeDisconnect)

/-- Go `type QosLevel uint8` -/
abbrev QosLevel := Nat

def QosAtMostOnce : QosLevel := 0
def QosAtLeastOnce : QosLevel := 1
def QosExactlyOnce : QosLevel := 2

/-- Go `QosLevel.Valid` -/
def QosLevel.Valid (q : QosLevel) : Bool := decide (q ≤ QosExactlyOnce)

/-! ## header.go -/

/-- Go `type Header byte` -/
abbrev Header := Nat

/-- Go `Header.Type`: getter of MsgType. -/
def Header.Type (h : Header) : MsgType :=
  let t : MsgType := shrByte h 4
  if MsgType.Valid t then t else MsgTypeInvaild

/-- Go `Header.SetType`: setter of MsgType; returns the new header and the error. -/
def Header.SetType (h : Header) (t : MsgType) : Header × Option Error :=
  if !MsgType.Valid t then (h, some Error.ErrBadMsgType)
  else
    let other := h &&& 0x0F
    (other ||| shlByte t 4, none)

/-- Go `Header.Dup`: getter of Dup flag. -/
def Header.Dup (h : Header) : Bool := get1Bit h 0x08

/-- Go `Header.SetDup`: setter of Dup flag. -/
def Header.SetDup (h : Header) (d : Bool) : Header := set1Bit h d 0x08

/-- Go `Header.Qos`: getter of Qos level. -/
def Header.Qos (h : Header) : QosLevel × Option Error :=
  let l : QosLevel := get2Bits h 1
  if QosLevel.Valid l then (l, none) else (l, some Error.ErrBadQosLevel)

/-- Go `Header.SetQos`: setter of Qos level; returns the new header and the error. -/
def Header.SetQos (h : Header) (l : QosLevel) : Header × Option Error :=
  if !QosLevel.Valid l then (h, some Error.ErrBadQosLevel)
  else (set2Bits h l 1, none)

/-- Go `Header.Retain`: getter of Retain flag. -/
def Header.Retain (h : Header) : Bool := get1Bit h 0x01

/-- Go `Header.SetRetain`: setter of Retain flag. -/
def Header.SetRetain (h : Header) (d : Bool) : Header := set1Bit h d 0x01

/-- Go `Header.readFrom`: decode header; returns the header read and the error. -/
def Header.readFrom (h : Header) (r : Reader) : (Header × Option Error) × Reader :=
  match ReadFull r 1 with
  | (Except.error err, r1) => ((h, some err), r1)
  | (Except.ok buf, r1) => ((buf.headD 0, none), r1)

/-- Max length of the content of MsgPublish. -/
def PublishMaxLen : Nat := 1024 * 1024

/-- Max length of the content of other messages. -/
def DefaultMaxLen : Nat := 1024 * 10

/-- Go `Header.bytes`: encode header, along with the length. -/
def Header.bytes (h : Header) (length : Nat) : List Nat × Option Error :=
  match len4.bytes length with
  | (_, some err) => ([], some err)
  | (ret, none) => ([h] ++ ret, none)

/-- Go `Header.Validate`: validate header and the length of the message. -/
def Header.Validate (h : Header) (length : Nat) : Option Error :=
  let t := Header.Type h
  if t = MsgTypeInvaild then some Error.ErrBadMsgType
  else
    match (Header.Qos h).2 with
    | some err => some err
    | none =>
      if t = MsgTypePublish then
        if length > PublishMaxLen then some Error.ErrTooLong else none
      else
        if length > DefaultMaxLen then some Error.ErrTooLong else none

/-! ## encoding.go: integers and message framing -/

/-- Go `readUint8`: read uint8 from an `io.Reader`. -/
def readUint8 (r : Reader) : (Nat × Option Error) × Reader :=
  match ReadFull r 1 with
  | (Except.error err, r1) => ((0, some err), r1)
  | (Except.ok buf, r1) => ((buf.headD 0, none), r1)

/-- Go `writeUint8`: write uint8 to an `io.Writer`. -/
def writeUint8 (w : Writer) (val : Nat) : Option Error × Writer :=
  (none, w.Write [val])

/-- Go `readUint16`: read uint16 from an `io.Reader` (big-endian). -/
def readUint16 (r : Reader) : (Nat × Option Error) × Reader :=
  match ReadFull r 2 with
  | (Except.error err, r1) => ((0, some err), r1)
  | (Except.ok buf, r1) => (((((buf.getD 0 0) <<< 8) % 2 ^ 16) ||| buf.getD 1 0, none), r1)

/-- Go `writeUint16`: write uint16 to an `io.Writer` (big-endian). -/
def writeUint16 (w : Writer) (val : Nat) : Option Error × Writer :=
  (none, w.Write [(val >>> 8) % 256, (val &&& 0x00ff) % 256])

/-- Go `readMsgLen`: read the length of the rest of the message. -/
def readMsgLen (r : Reader) : (Nat × Option Error) × Reader :=
  match readLen4 r with
  | ((_, some err), r1) => ((0, some err), r1)
  | ((l, none), r1) => ((l, none), r1)

/-- Go `writeMsgData`: helper function for writing a message. -/
def writeMsgData (w : Writer) (h : Header) (p : List Nat) : Option Error × Writer :=
  match writeUint8 w h with
  | (some err, w1) => (some err, w1)
  | (none, w1) =>
    match len4.writeTo (p.length % 2 ^ 32) w1 with
    | (some err, w2) => (some err, w2)
    | (none, w2) => (none, w2.Write p)

/-- Go `lr := &io.LimitedReader{r, int64(length)}` over the in-memory stream `r`. -/
def LimitedReader (r : List Nat) (length : Nat) : Reader := ⟨r, some length⟩

/-- The field `lr.N` of an `io.LimitedReader`. -/
def Reader.limitN (r : Reader) : Nat := r.N.getD 0

/-- Go `r.Read(p)` with `len(p) = n` on an in-memory stream or an `io.LimitedReader`
over one: `io.EOF` when the limit is used up or the stream is at its end, otherwise
as many bytes as the stream has, at most `n` and at most the limit. -/
def Reader.Read (r : Reader) (n : Nat) : (List Nat × Option Error) × Reader :=
  if r.N = some 0 then (([], some Error.EOF), r)
  else if r.data.length = 0 then (([], some Error.EOF), r)
  else ((r.avail.take n, none), r.advance (r.avail.take n).length)

/-- How a call ends: it returns a value, it stops with a run-time panic, or the loop
bound of the embedding is used up (which never happens, see `Read_ne_outOfFuel`). -/
inductive Run (α : Type) where
  | ret (a : α)
  | panic
  | outOfFuel
  deriving DecidableEq, Repr

/-! ## msgConnect.go -/

/-- Go `type ReturnCode uint8` -/
abbrev ReturnCode := Nat

def RCAccepted : ReturnCode := 0
def RCBadVersion : ReturnCode := 1
def RCIdRejected : ReturnCode := 2
def RCServerUnavailable : ReturnCode := 3
def RCBadUserPassword : ReturnCode := 4

/-- Go `ReturnCode.Valid` -/
def ReturnCode.Valid (c : ReturnCode) : Bool := decide (c ≤ RCBadUserPassword)

/-- Go `type MsgConnect struct`; the default values are Go's zero value. -/
structure MsgConnect where
  H : Header := 0
  ProtName : List Nat := []
  ProtVer : Nat := 0
  flags : Nat := 0
  KeepAlive : Nat := 0
  ClientId : List Nat := []
  WillTopic : List Nat := []
  WillMsg : List Nat := []
  UserName : List Nat := []
  Password : List Nat := []
  deriving DecidableEq, Repr

/-- Go `type MsgConnAct struct` -/
structure MsgConnAct where
  H : Header := 0
  RC : ReturnCode := 0
  deriving DecidableEq, Repr

/-- Go `MsgConnect.readFrom`; returns the message as left by the call, the error and
the stream after the call. -/
def MsgConnect.readFrom (m : MsgConnect) (r : List Nat) (h : Header) (length : Nat) :
    (MsgConnect × Option Error) × List Nat :=
  let m := { m with H := h }
  let lr := LimitedReader r length
  match readStr lr with
  | ((v, some err), lr) => (({ m with ProtName := v }, some err), lr.data)
  | ((v, none), lr) =>
  let m := { m with ProtName := v }
  match readUint8 lr with
  | ((v, some err), lr) => (({ m with ProtVer := v }, some err), lr.data)
  | ((v, none), lr) =>
  let m := { m with ProtVer := v }
  match readUint8 lr with
  | ((v, some err), lr) => (({ m with flags := v }, some err), lr.data)
  | ((v, none), lr) =>
  let m := { m with flags := v }
  match readUint16 lr with
  | ((v, some err), lr) => (({ m with KeepAlive := v }, some err), lr.data)
  | ((v, none), lr) =>
  let m := { m with KeepAlive := v }
  match readStr lr with
  | ((v, some err), lr) => (({ m with ClientId := v }, some err), lr.data)
  | ((v, none), lr) =>
  let m := { m with ClientId := v }
  match readStr lr with
  | ((v, some err), lr) => (({ m with WillTopic := v }, some err), lr.data)
  | ((v, none), lr) =>
  let m := { m with WillTopic := v }
  match readStr lr with
  | ((v, some err), lr) => (({ m with WillMsg := v }, some err), lr.data)
  | ((v, none), lr) =>
  let m := { m with WillMsg := v }
  match readStr lr with
  | ((v, some err), lr) => (({ m with UserName := v }, some err), lr.data)
  | ((v, none), lr) =>
  let m := { m with UserName := v }
  match readStr lr with
  | ((v, some err), lr) => (({ m with Password := v }, some err), lr.data)
  | ((v, none), lr) =>
  let m := { m with Password := v }
  if lr.limitN ≠ 0 then ((m, some Error.ErrWrongLength), lr.data)
  else ((m, none), lr.data)

/-- The payload `b.Bytes()` that `MsgConnect.writeTo` builds in its buffer. -/
def MsgConnect.payload (m : MsgConnect) : Option Error × Writer :=
  match str.writeTo m.ProtName [] with
  | (some err, b) => (some err, b)
  | (none, b) =>
  match writeUint8 b m.ProtVer with
  | (some err, b) => (some err, b)
  | (none, b) =>
  match writeUint8 b m.flags with
  | (some err, b) => (some err, b)
  | (none, b) =>
  match writeUint16 b m.KeepAlive with
  | (some err, b) => (some err, b)
  | (none, b) =>
  match str.writeTo m.ClientId b with
  | (some err, b) => (some err, b)
  | (none, b) =>
  match str.writeTo m.WillTopic b with
  | (some err, b) => (some err, b)
  | (none, b) =>
  match str.writeTo m.WillMsg b with
  | (some err, b) => (some err, b)
  | (none, b) =>
  match str.writeTo m.UserName b with
  | (some err, b) => (some err, b)
  | (none, b) => str.writeTo m.Password b

/-- Go `MsgConnect.writeTo` -/
def MsgConnect.writeTo (m : MsgConnect) (w : Writer) : Option Error × Writer :=
  match MsgConnect.payload m with
  | (some err, _) => (some err, w)
  | (none, b) => writeMsgData w m.H b

/-- Go `MsgConnAct.readFrom` -/
def MsgConnAct.readFrom (m : MsgConnAct) (r : List Nat) (h : Header) (length : Nat) :
    (MsgConnAct × Option Error) × List Nat :=
  let m := { m with H := h }
  let lr := LimitedReader r length
  match readUint8 lr with
  | ((_, some err), lr) => ((m, some err), lr.data)
  | ((_, none), lr) =>
  match readUint8 lr with
  | ((_, some err), lr) => ((m, some err), lr.data)
  | ((rc, none), lr) =>
  let m := { m with RC := rc }
  if !ReturnCode.Valid m.RC then ((m, some Error.ErrBadRC), lr.data)
  else if lr.limitN ≠ 0 then ((m, some Error.ErrWrongLength), lr.data)
  else ((m, none), lr.data)

/-- Go `MsgConnAct.writeTo` -/
def MsgConnAct.writeTo (m : MsgConnAct) (w : Writer) : Option Error × Writer :=
  writeMsgData w m.H [0, m.RC % 256]

/-- Go `MsgConnect.CleanSession`: getter of Clean Session flag. -/
def MsgConnect.CleanSession (m : MsgConnect) : Bool := get1Bit m.flags 0x02

/-- Go `MsgConnect.SetCleanSession`: setter of Clean Session flag. -/
def MsgConnect.SetCleanSession (m : MsgConnect) (v : Bool) : MsgConnect :=
  { m with flags := set1Bit m.flags v 0x02 }

/-- Go `MsgConnect.WillFlag`: getter of Will-Flag flag. -/
def MsgConnect.WillFlag (m : MsgConnect) : Bool := get1Bit m.flags 0x04

/-- Go `MsgConnect.SetWillFlag`: setter of Will-Flag flag. -/
def MsgConnect.SetWillFlag (m : MsgConnect) (v : Bool) : MsgConnect :=
  { m with flags := set1Bit m.flags v 0x04 }

/-- Go `MsgConnect.WillQos`: getter of Will-Qos level. -/
def MsgConnect.WillQos (m : MsgConnect) : QosLevel × Option Error :=
  let l : QosLevel := get2Bits m.flags 3
  if QosLevel.Valid l then (l, none) else (l, some Error.ErrBadQosLevel)

/-- Go `MsgConnect.SetWillQos`: setter of Will-Qos level; returns the new message and
the error. -/
def MsgConnect.SetWillQos (m : MsgConnect) (l : QosLevel) : MsgConnect × Option Error :=
  if !QosLevel.Valid l then (m, some Error.ErrBadQosLevel)
  else ({ m with flags := set2Bits m.flags l 3 }, none)

/-- Go `MsgConnect.WillRetain`: getter of Will-Retain flag. -/
def MsgConnect.WillRetain (m : MsgConnect) : Bool := get1Bit m.flags 0x20

/-- Go `MsgConnect.SetWillRetain`: setter of Will-Retain flag. -/
def MsgConnect.SetWillRetain (m : MsgConnect) (d : Bool) : MsgConnect :=
  { m with flags := set1Bit m.flags d 0x20 }

/-- Go `MsgConnect.PasswordFlag`: getter of Password flag. -/
def MsgConnect.PasswordFlag (m : MsgConnect) : Bool := get1Bit m.flags 0x40

/-- Go `MsgConnect.SetPasswordFlag`: setter of Password flag. -/
def MsgConnect.SetPasswordFlag (m : MsgConnect) (d : Bool) : MsgConnect :=
  { m with flags := set1Bit m.flags d 0x40 }

/-- Go `MsgConnect.UserNameFlag`: getter of User Name flag. -/
def MsgConnect.UserNameFlag (m : MsgConnect) : Bool := get1Bit m.flags 0x80

/-- Go `MsgConnect.SetUserNameFlag`: setter of User Name flag. -/
def MsgConnect.SetUserNameFlag (m : MsgConnect) (d : Bool) : MsgConnect :=
  { m with flags := set1Bit m.flags d 0x80 }

/-! ## msgSimple.go -/

/-- Go `type msgSimpleAck struct` -/
structure msgSimpleAck where
  H : Header := 0
  MsgId : Nat := 0
  deriving DecidableEq, Repr

/-- Go `msgSimpleAck.readFrom` -/
def msgSimpleAck.readFrom (m : msgSimpleAck) (r : List Nat) (h : Header) (length : Nat) :
    (msgSimpleAck × Option Error) × List Nat :=
  let m := { m with H := h }
  let lr := LimitedReader r length
  match readUint16 lr with
  | ((v, some err), lr) => (({ m with MsgId := v }, some err), lr.data)
  | ((v, none), lr) =>
  let m := { m with MsgId := v }
  if lr.limitN ≠ 0 then ((m, some Error.ErrWrongLength), lr.data)
  else ((m, none), lr.data)

/-- Go `msgSimpleAck.writeTo` -/
def msgSimpleAck.writeTo (m : msgSimpleAck) (w : Writer) : Option Error × Writer :=
  writeMsgData w m.H [(m.MsgId >>> 8) % 256, (m.MsgId &&& 0x00ff) % 256]

/-- Go `type msgHeaderOnly struct` -/
structure msgHeaderOnly where
  H : Header := 0
  deriving DecidableEq, Repr

/-- Go `msgHeaderOnly.readFrom` -/
def msgHeaderOnly.readFrom (m : msgHeaderOnly) (r : List Nat) (h : Header) (length : Nat) :
    (msgHeaderOnly × Option Error) × List Nat :=
  let m := { m with H := h }
  if length ≠ 0 then ((m, some Error.ErrWrongLength), r)
  else ((m, none), r)

/-- Go `msgHeaderOnly.writeTo` -/
def msgHeaderOnly.writeTo (m : msgHeaderOnly) (w : Writer) : Option Error × Writer :=
  writeMsgData w m.H []

/-! ## msgPublish.go -/

/-- Go `type MsgPublish struct` -/
structure MsgPublish where
  H : Header := 0
  Topic : List Nat := []
  MsgId : Nat := 0
  Content : List Nat := []
  deriving DecidableEq, Repr

/-- The loop `for lr.N > 0` of `MsgPublish.readFrom`. `filled` holds the bytes of
`m.Content` written so far, the rest of the buffer is still zero. Every pass reads at
least one byte or fails, so `lr.N` passes are enough; `fuel` bounds the passes. The
result is the content buffer, the error and the reader. -/
def MsgPublish.readContent :
    Nat → Reader → List Nat → Run ((List Nat × Option Error) × Reader)
  | 0, lr, filled =>
    if lr.limitN > 0 then Run.outOfFuel else Run.ret ((filled, none), lr)
  | fuel + 1, lr, filled =>
    if lr.limitN > 0 then
      match lr.Read lr.limitN with
      | ((p, some err), lr1) =>
        Run.ret ((filled ++ p ++ List.replicate (lr.limitN - p.length) 0, some err), lr1)
      | ((p, none), lr1) => MsgPublish.readContent fuel lr1 (filled ++ p)
    else Run.ret ((filled, none), lr)

/-- Go `MsgPublish.readFrom` -/
def MsgPublish.readFrom (m : MsgPublish) (r : List Nat) (h : Header) (length : Nat) :
    Run ((MsgPublish × Option Error) × List Nat) :=
  let m := { m with H := h }
  let lr := LimitedReader r length
  match readStr lr with
  | ((v, some err), lr) => Run.ret (({ m with Topic := v }, some err), lr.data)
  | ((v, none), lr) =>
  let m := { m with Topic := v }
  match Header.Qos h with
  | (_, some err) => Run.ret ((m, some err), lr.data)
  | (qos, none) =>
  let idStep : (MsgPublish × Option Error) × Reader :=
    if qos ≥ QosAtLeastOnce then
      match readUint16 lr with
      | ((v, err), lr1) => (({ m with MsgId := v }, err), lr1)
    else ((m, none), lr)
  match idStep with
  | ((m, some err), lr) => Run.ret ((m, some err), lr.data)
  | ((m, none), lr) =>
  match MsgPublish.readContent lr.limitN lr [] with
  | Run.ret ((c, err), lr1) => Run.ret (({ m with Content := c }, err), lr1.data)
  | Run.panic => Run.panic
  | Run.outOfFuel => Run.outOfFuel

/-- Go `MsgPublish.writeTo` -/
def MsgPublish.writeTo (m : MsgPublish) (w : Writer) : Option Error × Writer :=
  match str.writeTo m.Topic [] with
  | (some err, _) => (some err, w)
  | (none, b) =>
  match Header.Qos m.H with
  | (_, some err) => (some err, w)
  | (qos, none) =>
  let idStep : Option Error × Writer :=
    if qos ≥ QosAtLeastOnce then writeUint16 b m.MsgId else (none, b)
  match idStep with
  | (some err, _) => (some err, w)
  | (none, p) =>
  match writeUint8 w m.H with
  | (some err, w1) => (some err, w1)
  | (none, w1) =>
  match len4.writeTo ((p.length + m.Content.length) % 2 ^ 32) w1 with
  | (some err, w2) => (some err, w2)
  | (none, w2) => (none, (w2.Write p).Write m.Content)

/-! ## msgSubscribe.go -/

/-- Go `type MsgSubscribe struct` -/
structure MsgSubscribe where
  H : Header := 0
  MsgId : Nat := 0
  Topics : List (List Nat × QosLevel) := []
  deriving DecidableEq, Repr

/-- Go `type MsgSubAck struct` -/
structure MsgSubAck where
  H : Header := 0
  MsgId : Nat := 0
  GrantedQos : List QosLevel := []
  deriving DecidableEq, Repr

/-- Go `type MsgUnsubscribe struct` -/
structure MsgUnsubscribe where
  H : Header := 0
  MsgId : Nat := 0
  Topics : List (List Nat) := []
  deriving DecidableEq, Repr

/-- The loop `for lr.N > 0` of `MsgSubscribe.readFrom`; every pass reads at least one
byte or fails, `fuel` bounds the passes. -/
def MsgSubscribe.readTopics :
    Nat → Reader → MsgSubscribe → Run ((MsgSubscribe × Option Error) × Reader)
  | 0, lr, m => if lr.limitN > 0 then Run.outOfFuel else Run.ret ((m, none), lr)
  | fuel + 1, lr, m =>
    if lr.limitN > 0 then
      match readStr lr with
      | ((_, some err), lr1) => Run.ret ((m, some err), lr1)
      | ((topic, none), lr1) =>
        match readUint8 lr1 with
        | ((_, some err), lr2) => Run.ret ((m, some err), lr2)
        | ((qos, none), lr2) =>
          MsgSubscribe.readTopics fuel lr2 { m with Topics := m.Topics ++ [(topic, qos)] }
    else Run.ret ((m, none), lr)

/-- Go `MsgSubscribe.readFrom` -/
def MsgSubscribe.readFrom (m : MsgSubscribe) (r : List Nat) (h : Header) (length : Nat) :
    Run ((MsgSubscribe × Option Error) × List Nat) :=
  let m := { m with H := h }
  let lr := LimitedReader r length
  match readUint16 lr with
  | ((v, some err), lr) => Run.ret (({ m with MsgId := v }, some err), lr.data)
  | ((v, none), lr) =>
  let m := { m with MsgId := v }
  match MsgSubscribe.readTopics lr.limitN lr m with
  | Run.ret ((m, some err), lr) => Run.ret ((m, some err), lr.data)
  | Run.ret ((m, none), lr) =>
    if lr.limitN ≠ 0 then Run.ret ((m, some Error.ErrWrongLength), lr.data)
    else Run.ret ((m, none), lr.data)
  | Run.panic => Run.panic
  | Run.outOfFuel => Run.outOfFuel

/-- The loop `for _, t := range m.Topics` of `MsgSubscribe.writeTo`. -/
def MsgSubscribe.writeTopics : List (List Nat × QosLevel) → Writer → Option Error × Writer
  | [], b => (none, b)
  | t :: ts, b =>
    match str.writeTo t.1 b with
    | (some err, b1) => (some err, b1)
    | (none, b1) =>
      match writeUint8 b1 (t.2 % 256) with
      | (some err, b2) => (some err, b2)
      | (none, b2) => MsgSubscribe.writeTopics ts b2

/-- Go `MsgSubscribe.writeTo` -/
def MsgSubscribe.writeTo (m : MsgSubscribe) (w : Writer) : Option Error × Writer :=
  match writeUint16 [] m.MsgId with
  | (some err, _) => (some err, w)
  | (none, b) =>
  match MsgSubscribe.writeTopics m.Topics b with
  | (some err, _) => (some err, w)
  | (none, b) => writeMsgData w m.H b

/-- The loop `for lr.N > 0` of `MsgSubAck.readFrom`; `fuel` bounds the passes. -/
def MsgSubAck.readQos :
    Nat → Reader → MsgSubAck → Run ((MsgSubAck × Option Error) × Reader)
  | 0, lr, m => if lr.limitN > 0 then Run.outOfFuel else Run.ret ((m, none), lr)
  | fuel + 1, lr, m =>
    if lr.limitN > 0 then
      match readUint8 lr with
      | ((_, some err), lr1) => Run.ret ((m, some err), lr1)
      | ((qos, none), lr1) =>
        MsgSubAck.readQos fuel lr1 { m with GrantedQos := m.GrantedQos ++ [qos] }
    else Run.ret ((m, none), lr)

/-- Go `MsgSubAck.readFrom` -/
def MsgSubAck.readFrom (m : MsgSubAck) (r : List Nat) (h : Header) (length : Nat) :
    Run ((MsgSubAck × Option Error) × List Nat) :=
  let m := { m with H := h }
  let lr := LimitedReader r length
  match readUint16 lr with
  | ((v, some err), lr) => Run.ret (({ m with MsgId := v }, some err), lr.data)
  | ((v, none), lr) =>
  let m := { m with MsgId := v }
  match MsgSubAck.readQos lr.limitN lr m with
  | Run.ret ((m, some err), lr) => Run.ret ((m, some err), lr.data)
  | Run.ret ((m, none), lr) =>
    if lr.limitN ≠ 0 then Run.ret ((m, some Error.ErrWrongLength), lr.data)
    else Run.ret ((m, none), lr.data)
  | Run.panic => Run.panic
  | Run.outOfFuel => Run.outOfFuel

/-- The loop `for _, t := range m.GrantedQos` of `MsgSubAck.writeTo`. -/
def MsgSubAck.writeQos : List QosLevel → Writer → Option Error × Writer
  | [], b => (none, b)
  | t :: ts, b =>
    match writeUint8 b (t % 256) with
    | (some err, b1) => (some err, b1)
    | (none, b1) => MsgSubAck.writeQos ts b1

/-- Go `MsgSubAck.writeTo` -/
def MsgSubAck.writeTo (m : MsgSubAck) (w : Writer) : Option Error × Writer :=
  match writeUint16 [] m.MsgId with
  | (some err, _) => (some err, w)
  | (none, b) =>
  match MsgSubAck.writeQos m.GrantedQos b with
  | (some err, _) => (some err, w)
  | (none, b) => writeMsgData w m.H b

/-- The loop `for lr.N > 0` of `MsgUnsubscribe.readFrom`; `fuel` bounds the passes. -/
def MsgUnsubscribe.readTopics :
    Nat → Reader → MsgUnsubscribe → Run ((MsgUnsubscribe × Option Error) × Reader)
  | 0, lr, m => if lr.limitN > 0 then Run.outOfFuel else Run.ret ((m, none), lr)
  | fuel + 1, lr, m =>
    if lr.limitN > 0 then
      match readStr lr with
      | ((_, some err), lr1) => Run.ret ((m, some err), lr1)
      | ((topic, none), lr1) =>
        MsgUnsubscribe.readTopics fuel lr1 { m with Topics := m.Topics ++ [topic] }
    else Run.ret ((m, none), lr)

/-- Go `MsgUnsubscribe.readFrom` -/
def MsgUnsubscribe.readFrom (m : MsgUnsubscribe) (r : List Nat) (h : Header)
    (length : Nat) : Run ((MsgUnsubscribe × Option Error) × List Nat) :=
  let m := { m with H := h }
  let lr := LimitedReader r length
  match readUint16 lr with
  | ((v, some err), lr) => Run.ret (({ m with MsgId := v }, some err), lr.data)
  | ((v, none), lr) =>
  let m := { m with MsgId := v }
  match MsgUnsubscribe.readTopics lr.limitN lr m with
  | Run.ret ((m, some err), lr) => Run.ret ((m, some err), lr.data)
  | Run.ret ((m, none), lr) =>
    if lr.limitN ≠ 0 then Run.ret ((m, some Error.ErrWrongLength), lr.data)
    else Run.ret ((m, none), lr.data)
  | Run.panic => Run.panic
  | Run.outOfFuel => Run.outOfFuel

/-- The loop `for _, t := range m.Topics` of `MsgUnsubscribe.writeTo`. -/
def MsgUnsubscribe.writeTopics : List (List Nat) → Writer → Option Error × Writer
  | [], b => (none, b)
  | t :: ts, b =>
    match str.writeTo t b with
    | (some err, b1) => (some err, b1)
    | (none, b1) => MsgUnsubscribe.writeTopics ts b1

/-- Go `MsgUnsubscribe.writeTo` -/
def MsgUnsubscribe.writeTo (m : MsgUnsubscribe) (w : Writer) : Option Error × Writer :=
  match writeUint16 [] m.MsgId with
  | (some err, _) => (some err, w)
  | (none, b) =>
  match MsgUnsubscribe.writeTopics m.Topics b with
  | (some err, _) => (some err, w)
  | (none, b) => writeMsgData w m.H b

/-! ## mqttgo.go: the message interface, the registry, Read and Write -/

/-- The types that implement the Go interface `Msg`. `MsgPubAck`, `MsgPubRec`,
`MsgPubRel`, `MsgPubComp` and `MsgUnsubAck` embed `msgSimpleAck`; `MsgPingReq`,
`MsgPingResp` and `MsgDisconnect` embed `msgHeaderOnly`. -/
inductive Msg where
  | MsgConnect (m : MsgConnect)
  | MsgConnAct (m : MsgConnAct)
  | MsgPublish (m : MsgPublish)
  | MsgPubAck (m : msgSimpleAck)
  | MsgPubRec (m : msgSimpleAck)
  | MsgPubRel (m : msgSimpleAck)
  | MsgPubComp (m : msgSimpleAck)
  | MsgSubscribe (m : MsgSubscribe)
  | MsgSubAck (m : MsgSubAck)
  | MsgUnsubscribe (m : MsgUnsubscribe)
  | MsgUnsubAck (m : msgSimpleAck)
  | MsgPingReq (m : msgHeaderOnly)
  | MsgPingResp (m : msgHeaderOnly)
  | MsgDisconnect (m : msgHeaderOnly)
  deriving DecidableEq, Repr

/-- Go `msgRegistry`: the registry for creating Msg objects; `none` where the map has
no entry (the lookup then gives a nil function). -/
def msgRegistry (t : MsgType) : Option Msg :=
  if t = MsgTypeConnect then some (Msg.MsgConnect {})
  else if t = MsgTypeConnAck then some (Msg.MsgConnAct {})
  else if t = MsgTypePublish then some (Msg.MsgPublish {})
  else if t = MsgTypePubAck then some (Msg.MsgPubAck {})
  else if t = MsgTypePubRec then some (Msg.MsgPubRec {})
  else if t = MsgTypePubRel then some (Msg.MsgPubRel {})
  else if t = MsgTypePubComp then some (Msg.MsgPubComp {})
  else if t = MsgTypeSubscribe then some (Msg.MsgSubscribe {})
  else if t = MsgTypeSubAck then some (Msg.MsgSubAck {})
  else if t = MsgTypeUnsubscribe then some (Msg.MsgUnsubscribe {})
  else if t = MsgTypeUnsubAck then some (Msg.MsgUnsubAck {})
  else if t = MsgTypePingReq then some (Msg.MsgPingReq {})
  else if t = MsgTypePingResp then some (Msg.MsgPingResp {})
  else if t = MsgTypeDisconnect then some (Msg.MsgDisconnect {})
  else none

/-- Pairs a decoded message body with its variant. -/
def Run.wrap {α : Type} (f : α → Msg) :
    Run ((α × Option Error) × List Nat) → Run ((Msg × Option Error) × List Nat)
  | Run.ret ((m, err), r) => Run.ret ((f m, err), r)
  | Run.panic => Run.panic
  | Run.outOfFuel => Run.outOfFuel

/-- The interface method `Msg.readFrom`: decode Msg from `r`, the fixed header and the
length being already read. -/
def Msg.readFrom (msg : Msg) (r : List Nat) (h : Header) (length : Nat) :
    Run ((Msg × Option Error) × List Nat) :=
  match msg with
  | Msg.MsgConnect m => Run.wrap Msg.MsgConnect (Run.ret (m.readFrom r h length))
  | Msg.MsgConnAct m => Run.wrap Msg.MsgConnAct (Run.ret (m.readFrom r h length))
  | Msg.MsgPublish m => Run.wrap Msg.MsgPublish (m.readFrom r h length)
  | Msg.MsgPubAck m => Run.wrap Msg.MsgPubAck (Run.ret (m.readFrom r h length))
  | Msg.MsgPubRec m => Run.wrap Msg.MsgPubRec (Run.ret (m.readFrom r h length))
  | Msg.MsgPubRel m => Run.wrap Msg.MsgPubRel (Run.ret (m.readFrom r h length))
  | Msg.MsgPubComp m => Run.wrap Msg.MsgPubComp (Run.ret (m.readFrom r h length))
  | Msg.MsgSubscribe m => Run.wrap Msg.MsgSubscribe (m.readFrom r h length)
  | Msg.MsgSubAck m => Run.wrap Msg.MsgSubAck (m.readFrom r h length)
  | Msg.MsgUnsubscribe m => Run.wrap Msg.MsgUnsubscribe (m.readFrom r h length)
  | Msg.MsgUnsubAck m => Run.wrap Msg.MsgUnsubAck (Run.ret (m.readFrom r h length))
  | Msg.MsgPingReq m => Run.wrap Msg.MsgPingReq (Run.ret (m.readFrom r h length))
  | Msg.MsgPingResp m => Run.wrap Msg.MsgPingResp (Run.ret (m.readFrom r h length))
  | Msg.MsgDisconnect m => Run.wrap Msg.MsgDisconnect (Run.ret (m.readFrom r h length))

/-- The interface method `Msg.writeTo`: encode Msg. -/
def Msg.writeTo (msg : Msg) (w : Writer) : Option Error × Writer :=
  match msg with
  | Msg.MsgConnect m => m.writeTo w
  | Msg.MsgConnAct m => m.writeTo w
  | Msg.MsgPublish m => m.writeTo w
  | Msg.MsgPubAck m => m.writeTo w
  | Msg.MsgPubRec m => m.writeTo w
  | Msg.MsgPubRel m => m.writeTo w
  | Msg.MsgPubComp m => m.writeTo w
  | Msg.MsgSubscribe m => m.writeTo w
  | Msg.MsgSubAck m => m.writeTo w
  | Msg.MsgUnsubscribe m => m.writeTo w
  | Msg.MsgUnsubAck m => m.writeTo w
  | Msg.MsgPingReq m => m.writeTo w
  | Msg.MsgPingResp m => m.writeTo w
  | Msg.MsgDisconnect m => m.writeTo w

/-- Go `Read`: read a Msg from an `io.Reader`, here the in-memory stream `r`. The result
is the pair `(Msg, error)` (`none` for a nil message) and the stream after the call;
`Run.panic` is the call of the nil function of a missing registry entry. -/
def Read (r : List Nat) : Run ((Option Msg × Option Error) × List Nat) :=
  match Header.readFrom 0 ⟨r, none⟩ with
  | ((_, some err), r1) => Run.ret ((none, some err), r1.data)
  | ((h, none), r1) =>
  match readMsgLen r1 with
  | ((_, some err), r2) => Run.ret ((none, some err), r2.data)
  | ((l, none), r2) =>
  match Header.Validate h l with
  | some err => Run.ret ((none, some err), r2.data)
  | none =>
  let t := Header.Type h
  if t = MsgTypeInvaild then Run.ret ((none, some Error.ErrBadMsgType), r2.data)
  else
    match msgRegistry t with
    | none => Run.panic
    | some msg =>
      match Msg.readFrom msg r2.data h l with
      | Run.ret ((_, some err), r3) => Run.ret ((none, some err), r3)
      | Run.ret ((msg1, none), r3) => Run.ret ((some msg1, none), r3)
      | Run.panic => Run.panic
      | Run.outOfFuel => Run.outOfFuel

/-- The last step of `Read`, as a function of what the variant decoder returned: nil and
the error, or the message and nil. -/
def Read.finish :
    Run ((Msg × Option Error) × List Nat) → Run ((Option Msg × Option Error) × List Nat)
  | Run.ret ((_, some err), r3) => Run.ret ((none, some err), r3)
  | Run.ret ((msg1, none), r3) => Run.ret ((some msg1, none), r3)
  | Run.panic => Run.panic
  | Run.outOfFuel => Run.outOfFuel

/-- Go `Write`: write a Msg to an `io.Writer`. -/
def Write (w : Writer) (m : Msg) : Option Error × Writer :=
  Msg.writeTo m w

/-- Go `WriteConnAck`: write MsgTypeConnAck. -/
def WriteConnAck (w : Writer) (rc : ReturnCode) : Option Error × Writer :=
  let m : MsgConnAct := {}
  let m := { m with H := (Header.SetType m.H MsgTypeConnAck).1 }
  let m := { m with RC := rc }
  m.writeTo w

/-! ## Package msg (the second codec): msg/header.go -/

namespace msg

/-- Go `type Qos uint8` of package msg. -/
abbrev Qos := Nat

def QosAtMostOnce : Qos := 0
def QosAtLeastOnce : Qos := 1
def QosExactlyOnce : Qos := 2

/-- Go `Qos.Valid` of package msg. -/
def Qos.Valid (q : Qos) : Bool := decide (q ≤ QosExactlyOnce)

/-- Go `type Header struct` of package msg: the header byte and the remaining length. -/
structure Header where
  byte0 : Nat := 0
  length : Nat := 0
  deriving DecidableEq, Repr

/-- Go `Header.Dup` of package msg: getter of Dup flag. -/
def Header.Dup (h : Header) : Bool := (h.byte0 &&& 0x08) != 0

/-- Go `Header.Qos` of package msg: getter of Qos level. The error of package msg,
`ErrBadQosLevel`, has the same text as the one of package mqttgo and is modelled by it. -/
def Header.Qos (h : Header) : msg.Qos × Option Error :=
  let l : msg.Qos := shrByte h.byte0 1
  if msg.Qos.Valid l then (l, none) else (l, some Error.ErrBadQosLevel)

/-- Go `Header.SetQos` of package msg: setter of Qos level; returns the new header and
the error. -/
def Header.SetQos (h : Header) (l : msg.Qos) : Header × Option Error :=
  if !msg.Qos.Valid l then (h, some Error.ErrBadQosLevel)
  else
    let other := h.byte0 &&& notByte 0x06
    ({ h with byte0 := other ||| shlByte l 1 }, none)

/-- Go `Header.Retain` of package msg: getter of Retain flag. -/
def Header.Retain (h : Header) : Bool := (h.byte0 &&& 0x01) != 0

end msg

/-! ## Specification-side definitions -/

/-- The value of a VarLength byte sequence in the spec's words: the sum over `i` of
`(b_i & 0x7F)` shifted left by `7*i`; `sh` is the shift of the first byte. -/
def varintSum : List Nat → Nat → Nat
  | [], _ => 0
  | b :: bs, sh => ((b &&& 0x7f) <<< sh) + varintSum bs (sh + 7)

/-- The reader `r1` is the reader `r` after `j` of the bytes that `r` can deliver have
been read. -/
def Reader.StepsBy (r r1 : Reader) (j : Nat) : Prop :=
  j ≤ r.avail.length ∧ r1 = r.advance j

/-- The reader `r1` is the reader `r` after some bytes have been read. -/
def Reader.Steps (r r1 : Reader) : Prop := ∃ j, Reader.StepsBy r r1 j

/-- The reader `r1` is the reader `r` after one byte or more has been read. -/
def Reader.Progress (r r1 : Reader) : Prop := ∃ j, 1 ≤ j ∧ Reader.StepsBy r r1 j

/-- The bytes `enc` are a well-formed VarLength encoding (1 to 4 bytes, the high bit set
on all but the last) of the length of `s`: `enc ++ s` is a string field holding `s`. -/
def IsStrField (enc s : List Nat) : Prop :=
  1 ≤ enc.length ∧ enc.length ≤ 4
    ∧ (∀ b ∈ enc.dropLast, b &&& 0x80 ≠ 0) ∧ (∀ b ∈ enc.getLast?, b &&& 0x80 = 0)
    ∧ varintSum enc 0 = s.length

instance (enc s : List Nat) : Decidable (IsStrField enc s) := by
  unfold IsStrField
  infer_instance

/-- A topic/QoS pair on the wire, with the length prefix `enc` of its topic. -/
structure WirePair where
  enc : List Nat
  topic : List Nat
  qos : Nat
  deriving DecidableEq, Repr

/-- The bytes of a list of topic/QoS pairs: for each pair the string field of the topic
and then the QoS byte. -/
def wirePairs : List WirePair → List Nat
  | [] => []
  | p :: ps => p.enc ++ (p.topic ++ (p.qos :: wirePairs ps))

/-- The size `l` of the buffer that `readStr` allocates with `make([]byte, l)`: the
length prefix as decoded; `none` when `readLen4` fails and no buffer is allocated. -/
def readStr.bufSize (r : Reader) : Option Nat :=
  match readLen4 r with
  | ((_, some _), _) => none
  | ((l, none), _) => some l

/-- The size of the buffer that `MsgPublish.readFrom` allocates for the content with
`make([]byte, lr.N)`, `lr` being the reader after the topic and the message id. -/
def MsgPublish.contentBufSize (lr : Reader) : Nat := lr.limitN

/-- The payload of a Publish message in the spec's words: the topic as a string field,
then the message id if the QoS is at least 1, then the content; built in one buffer. -/
def MsgPublish.payload (m : MsgPublish) : Option Error × Writer :=
  match str.writeTo m.Topic [] with
  | (some err, b) => (some err, b)
  | (none, b) =>
  match Header.Qos m.H with
  | (_, some err) => (some err, b)
  | (qos, none) =>
  let b1 : Writer :=
    if qos ≥ QosAtLeastOnce then b ++ [(m.MsgId >>> 8) % 256, (m.MsgId &&& 0x00ff) % 256]
    else b
  (none, b1 ++ m.Content)

/-- The buffered encoder of a Publish message in the spec's words: `writeMsgData` on the
header and the single payload. -/
def MsgPublish.writeToBuffered (m : MsgPublish) (w : Writer) : Option Error × Writer :=
  match MsgPublish.payload m with
  | (some err, _) => (some err, w)
  | (none, p) => writeMsgData w m.H p

/-- The payload of a Connect message on the wire: protocol name, version, flags, 2-byte
keep-alive, then client id, will topic, will message, user name and password, each string
given as the pair of its length prefix and its bytes; `tail` is what follows. -/
def connectWire (pn : List Nat × List Nat) (ver fl kh kl : Nat)
    (cid wt wm un pw : List Nat × List Nat) (tail : List Nat) : List Nat :=
  pn.1 ++ (pn.2 ++ (ver :: fl :: kh :: kl :: (cid.1 ++ (cid.2 ++ (wt.1 ++ (wt.2
    ++ (wm.1 ++ (wm.2 ++ (un.1 ++ (un.2 ++ (pw.1 ++ (pw.2 ++ tail))))))))))))

/-- The loop of the encoder of the spec: 7-bit groups, least significant first, the
continuation bit set on every byte but the last; `i` bounds the number of bytes. -/
def specEncodeLoop : Nat → Nat → List Nat
  | 0, _ => []
  | i + 1, v => if v < 128 then [v] else ((v % 128) ||| 0x80) :: specEncodeLoop i (v / 128)

/-- The minimal VarLength encoding of `v` in the spec's words (at most 4 bytes; the
value 0 is a single zero byte). -/
def specEncode (v : Nat) : List Nat := specEncodeLoop 4 v

/-! ## Helper lemmas -/

theorem and_0x7f_eq_mod (b : Nat) : b &&& 0x7f = b % 128 :=
  Nat.and_pow_two_sub_one_eq_mod b 7

theorem or_shiftLeft_eq_add (val x sh : Nat) (hv : val < 2 ^ sh) :
    val ||| (x <<< sh) = val + x <<< sh := by
  rw [Nat.shiftLeft_eq, Nat.or_comm, Nat.mul_comm, ← Nat.mul_add_lt_is_or hv, Nat.add_comm]

theorem ReadFull_one_cons (b : Nat) (l : List Nat) :
    ReadFull ⟨b :: l, none⟩ 1 = (Except.ok [b], ⟨l, none⟩) := by
  simp [ReadFull, Reader.avail, Reader.advance]

theorem shiftLeft_mod128_lt (b sh : Nat) : (b % 128) <<< sh < 2 ^ (sh + 7) := by
  rw [Nat.shiftLeft_eq, Nat.pow_add, Nat.mul_comm]
  exact Nat.mul_lt_mul_of_pos_left (Nat.mod_lt _ (by norm_num)) (Nat.two_pow_pos sh)

theorem readLen4_step_val (b val sh : Nat) (hval : val < 2 ^ sh) (hsh : sh + 7 ≤ 32) :
    val ||| (((b &&& 0x7f) <<< sh) % 2 ^ 32) = val + (b &&& 0x7f) <<< sh := by
  have hlt : (b % 128) <<< sh < 2 ^ 32 :=
    lt_of_lt_of_le (shiftLeft_mod128_lt b sh) (Nat.pow_le_pow_right (by norm_num) hsh)
  rw [and_0x7f_eq_mod, Nat.mod_eq_of_lt hlt, or_shiftLeft_eq_add _ _ _ hval]

theorem readLen4_step_lt (b val sh : Nat) (hval : val < 2 ^ sh) :
    val + (b &&& 0x7f) <<< sh < 2 ^ (sh + 7) := by
  have h2 : b % 128 < 128 := Nat.mod_lt _ (by norm_num)
  have h3 : 0 < 2 ^ sh := Nat.two_pow_pos sh
  rw [and_0x7f_eq_mod, Nat.shiftLeft_eq, Nat.pow_add]
  nlinarith

theorem readLen4Loop_wellFormed (enc : List Nat) :
    ∀ (i val sh : Nat) (rest : List Nat), enc ≠ [] → enc.length ≤ i →
      (∀ b ∈ enc.dropLast, b &&& 0x80 ≠ 0) → (∀ b ∈ enc.getLast?, b &&& 0x80 = 0) →
      val < 2 ^ sh → sh + 7 * enc.length ≤ 32 →
      readLen4Loop i val sh ⟨enc ++ rest, none⟩
        = ((val + varintSum enc sh, none), ⟨rest, none⟩) := by
  induction enc with
  | nil => intro i val sh rest h; exact absurd rfl h
  | cons b bs ih =>
    intro i val sh rest _ hlen hcont hlast hval hsh
    obtain ⟨j, rfl⟩ : ∃ j, i = j + 1 := ⟨i - 1, by simp at hlen; omega⟩
    have hkey := readLen4_step_val b val sh hval (by simp at hsh; omega)
    cases bs with
    | nil =>
      have hb : b &&& 0x80 = 0 := hlast b (by simp)
      simp only [readLen4Loop, List.cons_append, List.nil_append, ReadFull_one_cons,
        List.headD_cons, hkey, hb, if_true, varintSum, Nat.add_zero]
    | cons c cs =>
      have hb : b &&& 0x80 ≠ 0 := hcont b (by simp)
      have hrec := ih j (val + (b &&& 0x7f) <<< sh) (sh + 7) rest (by simp)
        (by simp at hlen ⊢; omega)
        (fun x hx => hcont x (by simp [List.dropLast] at hx ⊢; exact Or.inr hx))
        (fun x hx => hlast x (by simpa using hx))
        (readLen4_step_lt b val sh hval) (by simp at hsh ⊢; omega)
      simp only [List.cons_append] at hrec
      simp only [readLen4Loop, List.cons_append, ReadFull_one_cons,
        List.headD_cons, hkey, if_neg hb, hrec]
      simp only [varintSum, Nat.add_assoc]

theorem readLen4_of_wellFormed (enc rest : List Nat)
    (hk1 : 1 ≤ enc.length) (hk4 : enc.length ≤ 4)
    (hcont : ∀ b ∈ enc.dropLast, b &&& 0x80 ≠ 0)
    (hlast : ∀ b ∈ enc.getLast?, b &&& 0x80 = 0) :
    readLen4 ⟨enc ++ rest, none⟩ = ((varintSum enc 0, none), ⟨rest, none⟩) := by
  have h := readLen4Loop_wellFormed enc 4 0 0 rest
    (by intro h; simp [h] at hk1) hk4 hcont hlast (by norm_num) (by omega)
  simpa [readLen4] using h

theorem varintSum_four (b0 b1 b2 b3 : Nat) :
    varintSum [b0, b1, b2, b3] 0
      = (b0 &&& 0x7f) <<< 0 + ((b1 &&& 0x7f) <<< 7 + ((b2 &&& 0x7f) <<< 14
          + ((b3 &&& 0x7f) <<< 21 + 0))) := rfl

theorem ReadFull_append (p rest : List Nat) :
    ReadFull ⟨p ++ rest, none⟩ p.length = (Except.ok p, ⟨rest, none⟩) := by
  cases p with
  | nil => simp [ReadFull]
  | cons a l => simp [ReadFull, Reader.avail, Reader.advance]

theorem ReadFull_short (tail : List Nat) (n : Nat) (h : tail.length < n) :
    (ReadFull ⟨tail, none⟩ n).1
      = Except.error (if tail.length = 0 then Error.EOF else Error.ErrUnexpectedEOF) := by
  have h1 : n ≠ 0 := by omega
  have h2 : ¬ n ≤ tail.length := by omega
  simp only [ReadFull, Reader.avail, h1, h2, if_false]
  split <;> rfl

theorem Reader.advance_zero (r : Reader) : r.advance 0 = r := by
  cases r with
  | mk d n => cases n <;> simp [Reader.advance]

theorem Reader.advance_advance (r : Reader) (a b : Nat) :
    (r.advance a).advance b = r.advance (a + b) := by
  cases r with
  | mk d n => cases n <;> simp [Reader.advance, Nat.sub_sub, Nat.add_comm]

theorem ReadFull_one_cases (r : Reader) :
    (∃ b, ReadFull r 1 = (Except.ok [b], r.advance 1)) ∨
      ReadFull r 1 = (Except.error Error.EOF, r) := by
  cases hav : r.avail with
  | nil => right; simp [ReadFull, hav]
  | cons a l => left; exact ⟨a, by simp [ReadFull, hav]⟩

theorem readLen4Loop_consumes (i : Nat) :
    ∀ (val sh : Nat) (r : Reader),
      ∃ k, k ≤ i ∧ (readLen4Loop i val sh r).2 = r.advance k := by
  induction i with
  | zero => intro val sh r; exact ⟨0, le_refl _, by simp [readLen4Loop, Reader.advance_zero]⟩
  | succ j ih =>
    intro val sh r
    rcases ReadFull_one_cases r with ⟨b, hb⟩ | he
    · by_cases hc : b &&& 0x80 = 0
      · exact ⟨1, by omega, by simp [readLen4Loop, hb, hc]⟩
      · obtain ⟨k, hk, hk2⟩ := ih (val ||| (((b &&& 0x7f) <<< sh) % 2 ^ 32)) (sh + 7)
          (r.advance 1)
        refine ⟨1 + k, by omega, ?_⟩
        simp only [readLen4Loop, hb, List.headD_cons, if_neg hc, hk2,
          Reader.advance_advance]
    · exact ⟨0, by omega, by simp [readLen4Loop, he, Reader.advance_zero]⟩

/-! ## Helper lemmas: the header -/

set_option maxRecDepth 100000 in
theorem Header.Type_eq (h : Nat) (hh : h < 256) : Header.Type h = h >>> 4 := by
  revert h
  decide

set_option maxRecDepth 100000 in
theorem Header.Qos_eq (h : Nat) (hh : h < 256) :
    Header.Qos h
      = ((h >>> 1) &&& 3,
          if (h >>> 1) &&& 3 = 3 then some Error.ErrBadQosLevel else none) := by
  revert h
  decide

theorem Header.Validate_eq (h length : Nat) (hh : h < 256) :
    Header.Validate h length
      = if h >>> 4 = 15 then some Error.ErrBadMsgType
        else if (h >>> 1) &&& 3 = 3 then some Error.ErrBadQosLevel
        else if h >>> 4 = 3 then
          (if length > 1048576 then some Error.ErrTooLong else none)
        else (if length > 10240 then some Error.ErrTooLong else none) := by
  simp only [Header.Validate, Header.Type_eq h hh, Header.Qos_eq h hh, MsgTypeInvaild,
    MsgTypePublish, PublishMaxLen, DefaultMaxLen]
  by_cases h1 : h >>> 4 = 15
  · simp [h1]
  · by_cases h2 : (h >>> 1) &&& 3 = 3
    · simp [h1, h2]
    · simp [h1, h2]

/-! ## Helper lemmas: what a read consumes -/

theorem Reader.avail_length_advance (r : Reader) (j : Nat) :
    (r.advance j).avail.length = r.avail.length - j := by
  cases r with
  | mk d n =>
    cases n with
    | none => simp [Reader.advance, Reader.avail]
    | some n =>
      simp only [Reader.advance, Reader.avail, Option.map_some', List.length_take,
        List.length_drop]
      omega

theorem Reader.Steps.refl (r : Reader) : Reader.Steps r r :=
  ⟨0, Nat.zero_le _, (Reader.advance_zero r).symm⟩

theorem Reader.StepsBy.trans_by {r r1 r2 : Reader} {a b : Nat}
    (h1 : Reader.StepsBy r r1 a) (h2 : Reader.StepsBy r1 r2 b) :
    Reader.StepsBy r r2 (a + b) := by
  obtain ⟨ha, rfl⟩ := h1
  obtain ⟨hb, rfl⟩ := h2
  rw [Reader.avail_length_advance] at hb
  exact ⟨by omega, Reader.advance_advance r a b⟩

theorem Reader.Steps.trans {r r1 r2 : Reader}
    (h1 : Reader.Steps r r1) (h2 : Reader.Steps r1 r2) : Reader.Steps r r2 := by
  obtain ⟨a, ha⟩ := h1
  obtain ⟨b, hb⟩ := h2
  exact ⟨a + b, ha.trans_by hb⟩

theorem Reader.Progress.steps {r r1 : Reader} (h : Reader.Progress r r1) :
    Reader.Steps r r1 := by
  obtain ⟨j, _, hj⟩ := h
  exact ⟨j, hj⟩

theorem Reader.Progress.trans_steps {r r1 r2 : Reader}
    (h1 : Reader.Progress r r1) (h2 : Reader.Steps r1 r2) : Reader.Progress r r2 := by
  obtain ⟨a, ha1, ha⟩ := h1
  obtain ⟨b, hb⟩ := h2
  exact ⟨a + b, by omega, ha.trans_by hb⟩

theorem ReadFull_steps (r : Reader) (n : Nat) : Reader.Steps r (ReadFull r n).2 := by
  unfold ReadFull
  split_ifs with h0 h1 h2
  · exact Reader.Steps.refl r
  · exact ⟨n, h1, rfl⟩
  · exact Reader.Steps.refl r
  · exact ⟨r.avail.length, le_refl _, rfl⟩

theorem ReadFull_ok (r : Reader) (n : Nat) (p : List Nat) (r1 : Reader)
    (h : ReadFull r n = (Except.ok p, r1)) :
    p.length = n ∧ Reader.StepsBy r r1 n := by
  unfold ReadFull at h
  split_ifs at h with h0 h1 h2
  · simp only [Prod.mk.injEq, Except.ok.injEq] at h
    obtain ⟨rfl, rfl⟩ := h
    subst h0
    exact ⟨rfl, Nat.zero_le _, (Reader.advance_zero r).symm⟩
  · simp only [Prod.mk.injEq, Except.ok.injEq] at h
    obtain ⟨rfl, rfl⟩ := h
    exact ⟨by simp [List.length_take, h1], h1, rfl⟩
  · simp at h
  · simp at h

theorem readLen4Loop_steps (i : Nat) :
    ∀ (val sh : Nat) (r : Reader), Reader.Steps r (readLen4Loop i val sh r).2 := by
  induction i with
  | zero => intro val sh r; exact Reader.Steps.refl r
  | succ j ih =>
    intro val sh r
    have hs := ReadFull_steps r 1
    simp only [readLen4Loop]
    rcases hrf : ReadFull r 1 with ⟨res, r1⟩
    rw [hrf] at hs
    cases res with
    | error e => exact hs
    | ok buf =>
      simp only
      split_ifs
      · exact hs
      · exact hs.trans (ih _ _ r1)

theorem readLen4Loop_progress (i : Nat) (val sh : Nat) (r : Reader)
    (hok : (readLen4Loop i val sh r).1.2 = none) :
    Reader.Progress r (readLen4Loop i val sh r).2 := by
  cases i with
  | zero => simp [readLen4Loop] at hok
  | succ j =>
    simp only [readLen4Loop] at hok ⊢
    rcases hrf : ReadFull r 1 with ⟨res, r1⟩
    rw [hrf] at hok
    cases res with
    | error e => simp at hok
    | ok buf =>
      have h1 := (ReadFull_ok r 1 buf r1 hrf).2
      simp only
      split_ifs
      · exact ⟨1, le_refl _, h1⟩
      · exact Reader.Progress.trans_steps ⟨1, le_refl _, h1⟩ (readLen4Loop_steps j _ _ r1)

theorem readLen4_steps (r : Reader) : Reader.Steps r (readLen4 r).2 :=
  readLen4Loop_steps 4 0 0 r

theorem readStr_steps (r : Reader) : Reader.Steps r (readStr r).2 := by
  have h1 := readLen4_steps r
  simp only [readStr]
  rcases hl : readLen4 r with ⟨⟨l, e⟩, r1⟩
  rw [hl] at h1
  cases e with
  | some err => exact h1
  | none =>
    have h2 := ReadFull_steps r1 l
    simp only
    rcases hrf : ReadFull r1 l with ⟨res, r2⟩
    rw [hrf] at h2
    cases res <;> exact h1.trans h2

theorem readStr_progress (r : Reader) (hok : (readStr r).1.2 = none) :
    Reader.Progress r (readStr r).2 := by
  simp only [readStr] at hok ⊢
  rcases hl : readLen4 r with ⟨⟨l, e⟩, r1⟩
  rw [hl] at hok
  cases e with
  | some err => simp at hok
  | none =>
    have h1 : Reader.Progress r r1 := by
      have := readLen4Loop_progress 4 0 0 r (by
        have := congrArg (fun x => x.1.2) hl
        simpa [readLen4] using this)
      have h3 : (readLen4Loop 4 0 0 r).2 = r1 := congrArg Prod.snd hl
      rwa [h3] at this
    have h2 := ReadFull_steps r1 l
    simp only
    rcases hrf : ReadFull r1 l with ⟨res, r2⟩
    rw [hrf] at h2
    cases res <;> exact h1.trans_steps h2

theorem readUint8_steps (r : Reader) : Reader.Steps r (readUint8 r).2 := by
  have h1 := ReadFull_steps r 1
  simp only [readUint8]
  rcases hrf : ReadFull r 1 with ⟨res, r1⟩
  rw [hrf] at h1
  cases res <;> exact h1

theorem readUint8_progress (r : Reader) (hok : (readUint8 r).1.2 = none) :
    Reader.Progress r (readUint8 r).2 := by
  simp only [readUint8] at hok ⊢
  rcases hrf : ReadFull r 1 with ⟨res, r1⟩
  rw [hrf] at hok
  cases res with
  | error e => simp at hok
  | ok buf => exact ⟨1, le_refl _, (ReadFull_ok r 1 buf r1 hrf).2⟩

theorem readUint16_steps (r : Reader) : Reader.Steps r (readUint16 r).2 := by
  have h1 := ReadFull_steps r 2
  simp only [readUint16]
  rcases hrf : ReadFull r 2 with ⟨res, r1⟩
  rw [hrf] at h1
  cases res <;> exact h1

theorem Reader.Read_steps (r : Reader) (n : Nat) : Reader.Steps r (r.Read n).2 := by
  unfold Reader.Read
  split_ifs
  · exact Reader.Steps.refl r
  · exact Reader.Steps.refl r
  · exact ⟨_, by simp [List.length_take], rfl⟩

theorem framing_of_steps (d : List Nat) (L : Nat) (lr : Reader)
    (hs : Reader.Steps (LimitedReader d L) lr) (hN : lr.limitN = 0) :
    L ≤ d.length ∧ lr.data = d.drop L := by
  obtain ⟨j, hj, rfl⟩ := hs
  simp only [LimitedReader, Reader.avail, List.length_take] at hj
  simp only [LimitedReader, Reader.advance, Reader.limitN, Option.map_some',
    Option.getD_some] at hN ⊢
  have hjL : j = L := by omega
  subst hjL
  exact ⟨by omega, rfl⟩

theorem msgSimpleAck_readFrom_framing (m m1 : msgSimpleAck) (d : List Nat) (h L : Nat)
    (s1 : List Nat) (hok : msgSimpleAck.readFrom m d h L = ((m1, none), s1)) :
    L ≤ d.length ∧ s1 = d.drop L := by
  have st := readUint16_steps (LimitedReader d L)
  simp only [msgSimpleAck.readFrom] at hok
  rcases hr : readUint16 (LimitedReader d L) with ⟨⟨v, e⟩, lr1⟩
  rw [hr] at hok st
  cases e with
  | some err => simp at hok
  | none =>
    simp only at hok st
    split_ifs at hok with hN
    · simp at hok
    · simp only [Prod.mk.injEq] at hok
      obtain ⟨_, rfl⟩ := hok
      have := framing_of_steps d L lr1 st (by simpa using hN)
      exact ⟨this.1, this.2⟩

theorem MsgConnAct_readFrom_framing (m m1 : MsgConnAct) (d : List Nat) (h L : Nat)
    (s1 : List Nat) (hok : MsgConnAct.readFrom m d h L = ((m1, none), s1)) :
    L ≤ d.length ∧ s1 = d.drop L := by
  have st1 := readUint8_steps (LimitedReader d L)
  simp only [MsgConnAct.readFrom] at hok
  rcases hr1 : readUint8 (LimitedReader d L) with ⟨⟨v1, e1⟩, lr1⟩
  rw [hr1] at hok st1
  cases e1 with
  | some err => simp at hok
  | none =>
    have st2 := readUint8_steps lr1
    simp only at hok st1
    rcases hr2 : readUint8 lr1 with ⟨⟨v2, e2⟩, lr2⟩
    rw [hr2] at hok st2
    cases e2 with
    | some err => simp at hok
    | none =>
      simp only at hok st2
      split_ifs at hok with hV hN
      · simp at hok
      · simp at hok
      · simp only [Prod.mk.injEq] at hok
        obtain ⟨_, rfl⟩ := hok
        exact framing_of_steps d L lr2 (st1.trans st2) (by simpa using hN)

theorem msgHeaderOnly_readFrom_framing (m m1 : msgHeaderOnly) (d : List Nat) (h L : Nat)
    (s1 : List Nat) (hok : msgHeaderOnly.readFrom m d h L = ((m1, none), s1)) :
    L ≤ d.length ∧ s1 = d.drop L := by
  simp only [msgHeaderOnly.readFrom] at hok
  split_ifs at hok with hL
  · simp at hok
  · simp only [Prod.mk.injEq] at hok
    obtain ⟨_, rfl⟩ := hok
    have hL0 : L = 0 := by simpa using hL
    subst hL0
    exact ⟨Nat.zero_le _, rfl⟩

theorem MsgConnect_readFrom_framing (m m1 : MsgConnect) (d : List Nat) (h L : Nat)
    (s1 : List Nat) (hok : MsgConnect.readFrom m d h L = ((m1, none), s1)) :
    L ≤ d.length ∧ s1 = d.drop L := by
  simp only [MsgConnect.readFrom] at hok
  have a1 := readStr_steps (LimitedReader d L)
  rcases hr1 : readStr (LimitedReader d L) with ⟨⟨v1, e1⟩, lr1⟩
  rw [hr1] at hok a1
  cases e1 with
  | some err => simp at hok
  | none =>
    simp only at hok a1
    have a2 := readUint8_steps lr1
    rcases hr2 : readUint8 lr1 with ⟨⟨v2, e2⟩, lr2⟩
    rw [hr2] at hok a2
    cases e2 with
    | some err => simp at hok
    | none =>
      simp only at hok a2
      have a3 := readUint8_steps lr2
      rcases hr3 : readUint8 lr2 with ⟨⟨v3, e3⟩, lr3⟩
      rw [hr3] at hok a3
      cases e3 with
      | some err => simp at hok
      | none =>
        simp only at hok a3
        have a4 := readUint16_steps lr3
        rcases hr4 : readUint16 lr3 with ⟨⟨v4, e4⟩, lr4⟩
        rw [hr4] at hok a4
        cases e4 with
        | some err => simp at hok
        | none =>
          simp only at hok a4
          have a5 := readStr_steps lr4
          rcases hr5 : readStr lr4 with ⟨⟨v5, e5⟩, lr5⟩
          rw [hr5] at hok a5
          cases e5 with
          | some err => simp at hok
          | none =>
            simp only at hok a5
            have a6 := readStr_steps lr5
            rcases hr6 : readStr lr5 with ⟨⟨v6, e6⟩, lr6⟩
            rw [hr6] at hok a6
            cases e6 with
            | some err => simp at hok
            | none =>
              simp only at hok a6
              have a7 := readStr_steps lr6
              rcases hr7 : readStr lr6 with ⟨⟨v7, e7⟩, lr7⟩
              rw [hr7] at hok a7
              cases e7 with
              | some err => simp at hok
              | none =>
                simp only at hok a7
                have a8 := readStr_steps lr7
                rcases hr8 : readStr lr7 with ⟨⟨v8, e8⟩, lr8⟩
                rw [hr8] at hok a8
                cases e8 with
                | some err => simp at hok
                | none =>
                  simp only at hok a8
                  have a9 := readStr_steps lr8
                  rcases hr9 : readStr lr8 with ⟨⟨v9, e9⟩, lr9⟩
                  rw [hr9] at hok a9
                  cases e9 with
                  | some err => simp at hok
                  | none =>
                    simp only at hok a9
                    split_ifs at hok with hN
                    · simp at hok
                    · simp only [Prod.mk.injEq] at hok
                      obtain ⟨_, rfl⟩ := hok
                      exact framing_of_steps d L lr9 ((((((((a1.trans a2).trans a3).trans a4).trans a5).trans a6).trans a7).trans a8).trans a9) (by simpa using hN)

theorem MsgPublish_readContent_steps (fuel : Nat) :
    ∀ (lr : Reader) (filled c : List Nat) (e : Option Error) (lr1 : Reader),
      MsgPublish.readContent fuel lr filled = Run.ret ((c, e), lr1) →
      Reader.Steps lr lr1 ∧ (e = none → lr1.limitN = 0) := by
  induction fuel with
  | zero =>
    intro lr filled c e lr1 hok
    simp only [MsgPublish.readContent] at hok
    split_ifs at hok with hN
    simp only [Run.ret.injEq, Prod.mk.injEq] at hok
    obtain ⟨⟨_, _⟩, rfl⟩ := hok
    exact ⟨Reader.Steps.refl _, fun _ => by omega⟩
  | succ k ih =>
    intro lr filled c e lr1 hok
    simp only [MsgPublish.readContent] at hok
    split_ifs at hok with hN
    · have a1 := Reader.Read_steps lr lr.limitN
      rcases hr : lr.Read lr.limitN with ⟨⟨p, e1⟩, lr2⟩
      rw [hr] at hok a1
      cases e1 with
      | some err =>
        simp only [Run.ret.injEq, Prod.mk.injEq] at hok
        obtain ⟨⟨_, rfl⟩, rfl⟩ := hok
        exact ⟨a1, fun hc => by cases hc⟩
      | none =>
        simp only at hok a1
        obtain ⟨h1, h2⟩ := ih lr2 (filled ++ p) c e lr1 hok
        exact ⟨a1.trans h1, h2⟩
    · simp only [Run.ret.injEq, Prod.mk.injEq] at hok
      obtain ⟨⟨_, _⟩, rfl⟩ := hok
      exact ⟨Reader.Steps.refl _, fun _ => by omega⟩

theorem MsgPublish_readFrom_framing (m m1 : MsgPublish) (d : List Nat) (h L : Nat)
    (s1 : List Nat) (hok : MsgPublish.readFrom m d h L = Run.ret ((m1, none), s1)) :
    L ≤ d.length ∧ s1 = d.drop L := by
  have tail : ∀ (mm : MsgPublish) (lr : Reader),
      Reader.Steps (LimitedReader d L) lr →
      (match MsgPublish.readContent lr.limitN lr [] with
        | Run.ret ((c, err), lr1) => Run.ret (({ mm with Content := c }, err), lr1.data)
        | Run.panic => Run.panic
        | Run.outOfFuel => Run.outOfFuel) = Run.ret ((m1, none), s1) →
      L ≤ d.length ∧ s1 = d.drop L := by
    intro mm lr st hm
    cases hc : MsgPublish.readContent lr.limitN lr [] with
    | ret a =>
      obtain ⟨⟨c, e⟩, lr3⟩ := a
      rw [hc] at hm
      simp only [Run.ret.injEq, Prod.mk.injEq] at hm
      obtain ⟨⟨_, rfl⟩, rfl⟩ := hm
      obtain ⟨h1, h2⟩ := MsgPublish_readContent_steps _ lr [] c none lr3 hc
      exact framing_of_steps d L lr3 (st.trans h1) (h2 rfl)
    | panic => rw [hc] at hm; cases hm
    | outOfFuel => rw [hc] at hm; cases hm
  simp only [MsgPublish.readFrom] at hok
  have a1 := readStr_steps (LimitedReader d L)
  rcases hr1 : readStr (LimitedReader d L) with ⟨⟨v1, e1⟩, lr1⟩
  rw [hr1] at hok a1
  cases e1 with
  | some err => simp at hok
  | none =>
    simp only at hok a1
    rcases hq : Header.Qos h with ⟨q, eq⟩
    rw [hq] at hok
    cases eq with
    | some err => simp at hok
    | none =>
      simp only at hok
      by_cases hge : q ≥ QosAtLeastOnce
      · simp only [hge, if_true] at hok
        have a2 := readUint16_steps lr1
        rcases hr2 : readUint16 lr1 with ⟨⟨v2, e2⟩, lr2⟩
        rw [hr2] at hok a2
        cases e2 with
        | some err => simp at hok
        | none =>
          simp only at hok a2
          exact tail { H := h, Topic := v1, MsgId := v2 } lr2 (a1.trans a2) hok
      · simp only [hge, if_false] at hok
        exact tail { H := h, Topic := v1, MsgId := m.MsgId } lr1 a1 hok

theorem MsgSubscribe_readTopics_steps (fuel : Nat) :
    ∀ (lr : Reader) (m m1 : MsgSubscribe) (e : Option Error) (lr1 : Reader),
      MsgSubscribe.readTopics fuel lr m = Run.ret ((m1, e), lr1) → Reader.Steps lr lr1 := by
  induction fuel with
  | zero =>
    intro lr m m1 e lr1 hok
    simp only [MsgSubscribe.readTopics] at hok
    split_ifs at hok with hN
    simp only [Run.ret.injEq, Prod.mk.injEq] at hok
    obtain ⟨_, rfl⟩ := hok
    exact Reader.Steps.refl _
  | succ k ih =>
    intro lr m m1 e lr1 hok
    simp only [MsgSubscribe.readTopics] at hok
    split_ifs at hok with hN
    · have a1 := readStr_steps lr
      rcases hr1 : readStr lr with ⟨⟨v1, e1⟩, lr2⟩
      rw [hr1] at hok a1
      cases e1 with
      | some err =>
        simp only [Run.ret.injEq, Prod.mk.injEq] at hok
        obtain ⟨_, rfl⟩ := hok
        exact a1
      | none =>
        simp only at hok a1
        have a2 := readUint8_steps lr2
        rcases hr2 : readUint8 lr2 with ⟨⟨v2, e2⟩, lr3⟩
        rw [hr2] at hok a2
        cases e2 with
        | some err =>
          simp only [Run.ret.injEq, Prod.mk.injEq] at hok
          obtain ⟨_, rfl⟩ := hok
          exact a1.trans a2
        | none =>
          simp only at hok a2
          exact (a1.trans a2).trans (ih lr3 _ m1 e lr1 hok)
    · simp only [Run.ret.injEq, Prod.mk.injEq] at hok
      obtain ⟨_, rfl⟩ := hok
      exact Reader.Steps.refl _

theorem MsgSubscribe_readFrom_framing (m m1 : MsgSubscribe) (d : List Nat) (h L : Nat)
    (s1 : List Nat) (hok : MsgSubscribe.readFrom m d h L = Run.ret ((m1, none), s1)) :
    L ≤ d.length ∧ s1 = d.drop L := by
  simp only [MsgSubscribe.readFrom] at hok
  have a1 := readUint16_steps (LimitedReader d L)
  rcases hr1 : readUint16 (LimitedReader d L) with ⟨⟨v1, e1⟩, lr1⟩
  rw [hr1] at hok a1
  cases e1 with
  | some err => simp at hok
  | none =>
    simp only at hok a1
    cases hc : MsgSubscribe.readTopics lr1.limitN lr1 { H := h, MsgId := v1, Topics := m.Topics } with
    | ret a =>
      obtain ⟨⟨mm, e⟩, lr3⟩ := a
      rw [hc] at hok
      have a2 := MsgSubscribe_readTopics_steps _ _ _ _ _ _ hc
      cases e with
      | some err => simp at hok
      | none =>
        simp only at hok
        split_ifs at hok with hN
        · simp at hok
        · simp only [Run.ret.injEq, Prod.mk.injEq] at hok
          obtain ⟨_, rfl⟩ := hok
          exact framing_of_steps d L lr3 (a1.trans a2) (by simpa using hN)
    | panic => rw [hc] at hok; cases hok
    | outOfFuel => rw [hc] at hok; cases hok

theorem MsgSubAck_readQos_steps (fuel : Nat) :
    ∀ (lr : Reader) (m m1 : MsgSubAck) (e : Option Error) (lr1 : Reader),
      MsgSubAck.readQos fuel lr m = Run.ret ((m1, e), lr1) → Reader.Steps lr lr1 := by
  induction fuel with
  | zero =>
    intro lr m m1 e lr1 hok
    simp only [MsgSubAck.readQos] at hok
    split_ifs at hok with hN
    simp only [Run.ret.injEq, Prod.mk.injEq] at hok
    obtain ⟨_, rfl⟩ := hok
    exact Reader.Steps.refl _
  | succ k ih =>
    intro lr m m1 e lr1 hok
    simp only [MsgSubAck.readQos] at hok
    split_ifs at hok with hN
    · have a1 := readUint8_steps lr
      rcases hr1 : readUint8 lr with ⟨⟨v1, e1⟩, lr2⟩
      rw [hr1] at hok a1
      cases e1 with
      | some err =>
        simp only [Run.ret.injEq, Prod.mk.injEq] at hok
        obtain ⟨_, rfl⟩ := hok
        exact a1
      | none =>
        simp only at hok a1
        exact a1.trans (ih lr2 _ m1 e lr1 hok)
    · simp only [Run.ret.injEq, Prod.mk.injEq] at hok
      obtain ⟨_, rfl⟩ := hok
      exact Reader.Steps.refl _

theorem MsgSubAck_readFrom_framing (m m1 : MsgSubAck) (d : List Nat) (h L : Nat)
    (s1 : List Nat) (hok : MsgSubAck.readFrom m d h L = Run.ret ((m1, none), s1)) :
    L ≤ d.length ∧ s1 = d.drop L := by
  simp only [MsgSubAck.readFrom] at hok
  have a1 := readUint16_steps (LimitedReader d L)
  rcases hr1 : readUint16 (LimitedReader d L) with ⟨⟨v1, e1⟩, lr1⟩
  rw [hr1] at hok a1
  cases e1 with
  | some err => simp at hok
  | none =>
    simp only at hok a1
    cases hc : MsgSubAck.readQos lr1.limitN lr1 { H := h, MsgId := v1, GrantedQos := m.GrantedQos } with
    | ret a =>
      obtain ⟨⟨mm, e⟩, lr3⟩ := a
      rw [hc] at hok
      have a2 := MsgSubAck_readQos_steps _ _ _ _ _ _ hc
      cases e with
      | some err => simp at hok
      | none =>
        simp only at hok
        split_ifs at hok with hN
        · simp at hok
        · simp only [Run.ret.injEq, Prod.mk.injEq] at hok
          obtain ⟨_, rfl⟩ := hok
          exact framing_of_steps d L lr3 (a1.trans a2) (by simpa using hN)
    | panic => rw [hc] at hok; cases hok
    | outOfFuel => rw [hc] at hok; cases hok

theorem MsgUnsubscribe_readTopics_steps (fuel : Nat) :
    ∀ (lr : Reader) (m m1 : MsgUnsubscribe) (e : Option Error) (lr1 : Reader),
      MsgUnsubscribe.readTopics fuel lr m = Run.ret ((m1, e), lr1) → Reader.Steps lr lr1 := by
  induction fuel with
  | zero =>
    intro lr m m1 e lr1 hok
    simp only [MsgUnsubscribe.readTopics] at hok
    split_ifs at hok with hN
    simp only [Run.ret.injEq, Prod.mk.injEq] at hok
    obtain ⟨_, rfl⟩ := hok
    exact Reader.Steps.refl _
  | succ k ih =>
    intro lr m m1 e lr1 hok
    simp only [MsgUnsubscribe.readTopics] at hok
    split_ifs at hok with hN
    · have a1 := readStr_steps lr
      rcases hr1 : readStr lr with ⟨⟨v1, e1⟩, lr2⟩
      rw [hr1] at hok a1
      cases e1 with
      | some err =>
        simp only [Run.ret.injEq, Prod.mk.injEq] at hok
        obtain ⟨_, rfl⟩ := hok
        exact a1
      | none =>
        simp only at hok a1
        exact a1.trans (ih lr2 _ m1 e lr1 hok)
    · simp only [Run.ret.injEq, Prod.mk.injEq] at hok
      obtain ⟨_, rfl⟩ := hok
      exact Reader.Steps.refl _

theorem MsgUnsubscribe_readFrom_framing (m m1 : MsgUnsubscribe) (d : List Nat) (h L : Nat)
    (s1 : List Nat) (hok : MsgUnsubscribe.readFrom m d h L = Run.ret ((m1, none), s1)) :
    L ≤ d.length ∧ s1 = d.drop L := by
  simp only [MsgUnsubscribe.readFrom] at hok
  have a1 := readUint16_steps (LimitedReader d L)
  rcases hr1 : readUint16 (LimitedReader d L) with ⟨⟨v1, e1⟩, lr1⟩
  rw [hr1] at hok a1
  cases e1 with
  | some err => simp at hok
  | none =>
    simp only at hok a1
    cases hc : MsgUnsubscribe.readTopics lr1.limitN lr1 { H := h, MsgId := v1, Topics := m.Topics } with
    | ret a =>
      obtain ⟨⟨mm, e⟩, lr3⟩ := a
      rw [hc] at hok
      have a2 := MsgUnsubscribe_readTopics_steps _ _ _ _ _ _ hc
      cases e with
      | some err => simp at hok
      | none =>
        simp only at hok
        split_ifs at hok with hN
        · simp at hok
        · simp only [Run.ret.injEq, Prod.mk.injEq] at hok
          obtain ⟨_, rfl⟩ := hok
          exact framing_of_steps d L lr3 (a1.trans a2) (by simpa using hN)
    | panic => rw [hc] at hok; cases hok
    | outOfFuel => rw [hc] at hok; cases hok

theorem Msg_readFrom_framing (msg m1 : Msg) (d : List Nat) (h L : Nat) (s1 : List Nat)
    (hok : Msg.readFrom msg d h L = Run.ret ((m1, none), s1)) :
    L ≤ d.length ∧ s1 = d.drop L := by
  cases msg with
  | MsgConnect m =>
    simp only [Msg.readFrom, Run.wrap] at hok
    rcases hr : MsgConnect.readFrom m d h L with ⟨⟨m2, e⟩, s2⟩
    rw [hr] at hok
    simp only [Run.ret.injEq, Prod.mk.injEq] at hok
    obtain ⟨⟨_, rfl⟩, rfl⟩ := hok
    exact MsgConnect_readFrom_framing m m2 d h L s2 hr
  | MsgConnAct m =>
    simp only [Msg.readFrom, Run.wrap] at hok
    rcases hr : MsgConnAct.readFrom m d h L with ⟨⟨m2, e⟩, s2⟩
    rw [hr] at hok
    simp only [Run.ret.injEq, Prod.mk.injEq] at hok
    obtain ⟨⟨_, rfl⟩, rfl⟩ := hok
    exact MsgConnAct_readFrom_framing m m2 d h L s2 hr
  | MsgPublish m =>
    simp only [Msg.readFrom] at hok
    cases hr : MsgPublish.readFrom m d h L with
    | ret a =>
      obtain ⟨⟨m2, e⟩, s2⟩ := a
      rw [hr] at hok
      simp only [Run.wrap, Run.ret.injEq, Prod.mk.injEq] at hok
      obtain ⟨⟨_, rfl⟩, rfl⟩ := hok
      exact MsgPublish_readFrom_framing m m2 d h L s2 hr
    | panic => rw [hr] at hok; cases hok
    | outOfFuel => rw [hr] at hok; cases hok
  | MsgPubAck m =>
    simp only [Msg.readFrom, Run.wrap] at hok
    rcases hr : msgSimpleAck.readFrom m d h L with ⟨⟨m2, e⟩, s2⟩
    rw [hr] at hok
    simp only [Run.ret.injEq, Prod.mk.injEq] at hok
    obtain ⟨⟨_, rfl⟩, rfl⟩ := hok
    exact msgSimpleAck_readFrom_framing m m2 d h L s2 hr
  | MsgPubRec m =>
    simp only [Msg.readFrom, Run.wrap] at hok
    rcases hr : msgSimpleAck.readFrom m d h L with ⟨⟨m2, e⟩, s2⟩
    rw [hr] at hok
    simp only [Run.ret.injEq, Prod.mk.injEq] at hok
    obtain ⟨⟨_, rfl⟩, rfl⟩ := hok
    exact msgSimpleAck_readFrom_framing m m2 d h L s2 hr
  | MsgPubRel m =>
    simp only [Msg.readFrom, Run.wrap] at hok
    rcases hr : msgSimpleAck.readFrom m d h L with ⟨⟨m2, e⟩, s2⟩
    rw [hr] at hok
    simp only [Run.ret.injEq, Prod.mk.injEq] at hok
    obtain ⟨⟨_, rfl⟩, rfl⟩ := hok
    exact msgSimpleAck_readFrom_framing m m2 d h L s2 hr
  | MsgPubComp m =>
    simp only [Msg.readFrom, Run.wrap] at hok
    rcases hr : msgSimpleAck.readFrom m d h L with ⟨⟨m2, e⟩, s2⟩
    rw [hr] at hok
    simp only [Run.ret.injEq, Prod.mk.injEq] at hok
    obtain ⟨⟨_, rfl⟩, rfl⟩ := hok
    exact msgSimpleAck_readFrom_framing m m2 d h L s2 hr
  | MsgSubscribe m =>
    simp only [Msg.readFrom] at hok
    cases hr : MsgSubscribe.readFrom m d h L with
    | ret a =>
      obtain ⟨⟨m2, e⟩, s2⟩ := a
      rw [hr] at hok
      simp only [Run.wrap, Run.ret.injEq, Prod.mk.injEq] at hok
      obtain ⟨⟨_, rfl⟩, rfl⟩ := hok
      exact MsgSubscribe_readFrom_framing m m2 d h L s2 hr
    | panic => rw [hr] at hok; cases hok
    | outOfFuel => rw [hr] at hok; cases hok
  | MsgSubAck m =>
    simp only [Msg.readFrom] at hok
    cases hr : MsgSubAck.readFrom m d h L with
    | ret a =>
      obtain ⟨⟨m2, e⟩, s2⟩ := a
      rw [hr] at hok
      simp only [Run.wrap, Run.ret.injEq, Prod.mk.injEq] at hok
      obtain ⟨⟨_, rfl⟩, rfl⟩ := hok
      exact MsgSubAck_readFrom_framing m m2 d h L s2 hr
    | panic => rw [hr] at hok; cases hok
    | outOfFuel => rw [hr] at hok; cases hok
  | MsgUnsubscribe m =>
    simp only [Msg.readFrom] at hok
    cases hr : MsgUnsubscribe.readFrom m d h L with
    | ret a =>
      obtain ⟨⟨m2, e⟩, s2⟩ := a
      rw [hr] at hok
      simp only [Run.wrap, Run.ret.injEq, Prod.mk.injEq] at hok
      obtain ⟨⟨_, rfl⟩, rfl⟩ := hok
      exact MsgUnsubscribe_readFrom_framing m m2 d h L s2 hr
    | panic => rw [hr] at hok; cases hok
    | outOfFuel => rw [hr] at hok; cases hok
  | MsgUnsubAck m =>
    simp only [Msg.readFrom, Run.wrap] at hok
    rcases hr : msgSimpleAck.readFrom m d h L with ⟨⟨m2, e⟩, s2⟩
    rw [hr] at hok
    simp only [Run.ret.injEq, Prod.mk.injEq] at hok
    obtain ⟨⟨_, rfl⟩, rfl⟩ := hok
    exact msgSimpleAck_readFrom_framing m m2 d h L s2 hr
  | MsgPingReq m =>
    simp only [Msg.readFrom, Run.wrap] at hok
    rcases hr : msgHeaderOnly.readFrom m d h L with ⟨⟨m2, e⟩, s2⟩
    rw [hr] at hok
    simp only [Run.ret.injEq, Prod.mk.injEq] at hok
    obtain ⟨⟨_, rfl⟩, rfl⟩ := hok
    exact msgHeaderOnly_readFrom_framing m m2 d h L s2 hr
  | MsgPingResp m =>
    simp only [Msg.readFrom, Run.wrap] at hok
    rcases hr : msgHeaderOnly.readFrom m d h L with ⟨⟨m2, e⟩, s2⟩
    rw [hr] at hok
    simp only [Run.ret.injEq, Prod.mk.injEq] at hok
    obtain ⟨⟨_, rfl⟩, rfl⟩ := hok
    exact msgHeaderOnly_readFrom_framing m m2 d h L s2 hr
  | MsgDisconnect m =>
    simp only [Msg.readFrom, Run.wrap] at hok
    rcases hr : msgHeaderOnly.readFrom m d h L with ⟨⟨m2, e⟩, s2⟩
    rw [hr] at hok
    simp only [Run.ret.injEq, Prod.mk.injEq] at hok
    obtain ⟨⟨_, rfl⟩, rfl⟩ := hok
    exact msgHeaderOnly_readFrom_framing m m2 d h L s2 hr

/-! ## Helper lemmas: Read -/

theorem Read_of_valid (hb : Nat) (s : List Nat) (l : Nat) (r2 : Reader) (msg : Msg)
    (hlen : readLen4 ⟨s, none⟩ = ((l, none), r2))
    (hval : Header.Validate hb l = none)
    (hreg : msgRegistry (Header.Type hb) = some msg) :
    Read (hb :: s) = Read.finish (Msg.readFrom msg r2.data hb l) := by
  have hne : ¬ Header.Type hb = MsgTypeInvaild := by
    intro hc
    have hnone : msgRegistry MsgTypeInvaild = none := by decide
    rw [hc, hnone] at hreg
    cases hreg
  simp only [Read, Header.readFrom, ReadFull_one_cons, List.headD_cons, readMsgLen, hlen,
    hval, hne, if_false, hreg]
  cases Msg.readFrom msg r2.data hb l with
  | ret a =>
    obtain ⟨⟨m1, e1⟩, r3⟩ := a
    cases e1 <;> rfl
  | panic => rfl
  | outOfFuel => rfl

theorem readLen4_framing (s : List Nat) (l : Nat) (r2 : Reader)
    (h : readLen4 ⟨s, none⟩ = ((l, none), r2)) :
    ∃ j, 1 ≤ j ∧ j ≤ 4 ∧ j ≤ s.length ∧ r2 = ⟨s.drop j, none⟩ := by
  have hp := readLen4Loop_progress 4 0 0 ⟨s, none⟩ (by
    have := congrArg (fun x => x.1.2) h
    simpa [readLen4] using this)
  obtain ⟨k, hk, hk2⟩ := readLen4Loop_consumes 4 0 0 ⟨s, none⟩
  have h2 : (readLen4Loop 4 0 0 ⟨s, none⟩).2 = r2 := congrArg Prod.snd h
  rw [h2] at hp hk2
  obtain ⟨j, hj1, hj2, hj3⟩ := hp
  simp only [Reader.avail] at hj2
  simp only [Reader.advance, Option.map_none'] at hj3 hk2
  refine ⟨j, hj1, ?_, hj2, hj3⟩
  have h3 : (s.drop j).length = (s.drop k).length := by
    rw [hj3] at hk2
    simp only [Reader.mk.injEq, and_true] at hk2
    rw [hk2]
  simp only [List.length_drop] at h3
  omega

theorem Read_success (r s1 : List Nat) (m : Msg)
    (hok : Read r = Run.ret ((some m, none), s1)) :
    ∃ hb s l j, r = hb :: s ∧ 1 ≤ j ∧ j ≤ 4 ∧ j ≤ s.length
      ∧ readLen4 ⟨s, none⟩ = ((l, none), ⟨s.drop j, none⟩)
      ∧ l ≤ (s.drop j).length ∧ s1 = (s.drop j).drop l := by
  cases r with
  | nil => simp [Read, Header.readFrom, ReadFull, Reader.avail] at hok
  | cons hb s =>
    simp only [Read, Header.readFrom, ReadFull_one_cons, List.headD_cons, readMsgLen] at hok
    rcases hl : readLen4 ⟨s, none⟩ with ⟨⟨l, e⟩, r2⟩
    rw [hl] at hok
    cases e with
    | some err => simp at hok
    | none =>
      obtain ⟨j, hj1, hj4, hjs, rfl⟩ := readLen4_framing s l r2 hl
      simp only at hok
      cases hv : Header.Validate hb l with
      | some err => rw [hv] at hok; simp at hok
      | none =>
        rw [hv] at hok
        simp only at hok
        split_ifs at hok with ht
        · simp at hok
        · cases hreg : msgRegistry (Header.Type hb) with
          | none => rw [hreg] at hok; cases hok
          | some msg =>
            rw [hreg] at hok
            simp only at hok
            cases hrf : Msg.readFrom msg (s.drop j) hb l with
            | ret a =>
              obtain ⟨⟨m2, e2⟩, s2⟩ := a
              rw [hrf] at hok
              cases e2 with
              | some err => simp at hok
              | none =>
                simp only [Run.ret.injEq, Prod.mk.injEq] at hok
                obtain ⟨_, rfl⟩ := hok
                obtain ⟨h1, h2⟩ := Msg_readFrom_framing msg m2 (s.drop j) hb l s2 hrf
                exact ⟨hb, s, l, j, rfl, hj1, hj4, hjs, hl, h1, h2⟩
            | panic => rw [hrf] at hok; cases hok
            | outOfFuel => rw [hrf] at hok; cases hok

/-! ## Helper lemmas: the loop bounds are never used up -/

theorem Reader.limitN_lt_of_progress (lr lr1 : Reader) (hp : Reader.Progress lr lr1)
    (hN : lr.limitN > 0) : lr1.limitN < lr.limitN := by
  obtain ⟨j, hj1, hj2, rfl⟩ := hp
  cases lr with
  | mk d n =>
    cases n with
    | none => simp [Reader.limitN] at hN
    | some n =>
      simp only [Reader.limitN, Reader.advance, Reader.avail, List.length_take,
        Option.map_some', Option.getD_some] at hN hj2 ⊢
      omega

theorem Reader.Read_progress (r : Reader) (n : Nat) (hok : (r.Read n).1.2 = none)
    (hn : 0 < n) : Reader.Progress r (r.Read n).2 := by
  unfold Reader.Read at hok ⊢
  split_ifs at hok ⊢ with h1 h2
  refine ⟨_, ?_, by simp [List.length_take], rfl⟩
  cases r with
  | mk d k =>
    cases k with
    | none =>
      simp only [Reader.avail, List.length_take] at h2 ⊢
      omega
    | some k =>
      have hk : k ≠ 0 := by
        intro hc
        exact h1 (by rw [hc])
      simp only [Reader.avail, List.length_take] at h2 ⊢
      omega

theorem MsgPublish_readContent_fuel (fuel : Nat) :
    ∀ (lr : Reader) (filled : List Nat), lr.limitN ≤ fuel →
      MsgPublish.readContent fuel lr filled ≠ Run.outOfFuel := by
  induction fuel with
  | zero =>
    intro lr filled hle
    have h0 : ¬ lr.limitN > 0 := by omega
    simp [MsgPublish.readContent, h0]
  | succ k ih =>
    intro lr filled hle
    simp only [MsgPublish.readContent]
    split_ifs with hN
    · have a1 := Reader.Read_progress lr lr.limitN
      rcases hr : lr.Read lr.limitN with ⟨⟨p, e1⟩, lr2⟩
      rw [hr] at a1
      cases e1 with
      | some err => simp
      | none =>
        have := Reader.limitN_lt_of_progress lr lr2 (a1 rfl hN) hN
        exact ih lr2 _ (by omega)
    · simp

theorem MsgSubscribe_readTopics_fuel (fuel : Nat) :
    ∀ (lr : Reader) (m : MsgSubscribe), lr.limitN ≤ fuel →
      MsgSubscribe.readTopics fuel lr m ≠ Run.outOfFuel := by
  induction fuel with
  | zero =>
    intro lr m hle
    have h0 : ¬ lr.limitN > 0 := by omega
    simp [MsgSubscribe.readTopics, h0]
  | succ k ih =>
    intro lr m hle
    simp only [MsgSubscribe.readTopics]
    split_ifs with hN
    · have a1 := readStr_progress lr
      rcases hr1 : readStr lr with ⟨⟨v1, e1⟩, lr2⟩
      rw [hr1] at a1
      cases e1 with
      | some err => simp
      | none =>
        have a2 := readUint8_steps lr2
        simp only
        rcases hr2 : readUint8 lr2 with ⟨⟨v2, e2⟩, lr3⟩
        rw [hr2] at a2
        cases e2 with
        | some err => simp
        | none =>
          have := Reader.limitN_lt_of_progress lr lr3 ((a1 rfl).trans_steps a2) hN
          exact ih lr3 _ (by omega)
    · simp

theorem MsgSubAck_readQos_fuel (fuel : Nat) :
    ∀ (lr : Reader) (m : MsgSubAck), lr.limitN ≤ fuel →
      MsgSubAck.readQos fuel lr m ≠ Run.outOfFuel := by
  induction fuel with
  | zero =>
    intro lr m hle
    have h0 : ¬ lr.limitN > 0 := by omega
    simp [MsgSubAck.readQos, h0]
  | succ k ih =>
    intro lr m hle
    simp only [MsgSubAck.readQos]
    split_ifs with hN
    · have a1 := readUint8_progress lr
      rcases hr1 : readUint8 lr with ⟨⟨v1, e1⟩, lr2⟩
      rw [hr1] at a1
      cases e1 with
      | some err => simp
      | none =>
        have := Reader.limitN_lt_of_progress lr lr2 (a1 rfl) hN
        exact ih lr2 _ (by omega)
    · simp

theorem MsgUnsubscribe_readTopics_fuel (fuel : Nat) :
    ∀ (lr : Reader) (m : MsgUnsubscribe), lr.limitN ≤ fuel →
      MsgUnsubscribe.readTopics fuel lr m ≠ Run.outOfFuel := by
  induction fuel with
  | zero =>
    intro lr m hle
    have h0 : ¬ lr.limitN > 0 := by omega
    simp [MsgUnsubscribe.readTopics, h0]
  | succ k ih =>
    intro lr m hle
    simp only [MsgUnsubscribe.readTopics]
    split_ifs with hN
    · have a1 := readStr_progress lr
      rcases hr1 : readStr lr with ⟨⟨v1, e1⟩, lr2⟩
      rw [hr1] at a1
      cases e1 with
      | some err => simp
      | none =>
        have := Reader.limitN_lt_of_progress lr lr2 (a1 rfl) hN
        exact ih lr2 _ (by omega)
    · simp

theorem MsgPublish_readFrom_fuel (m : MsgPublish) (d : List Nat) (h L : Nat) :
    MsgPublish.readFrom m d h L ≠ Run.outOfFuel := by
  have tail : ∀ (mm : MsgPublish) (lr : Reader),
      (match MsgPublish.readContent lr.limitN lr [] with
        | Run.ret ((c, err), lr1) => Run.ret (({ mm with Content := c }, err), lr1.data)
        | Run.panic => Run.panic
        | Run.outOfFuel => Run.outOfFuel) ≠ Run.outOfFuel := by
    intro mm lr
    have hf := MsgPublish_readContent_fuel lr.limitN lr [] (le_refl _)
    cases hc : MsgPublish.readContent lr.limitN lr [] with
    | ret a => simp
    | panic => simp
    | outOfFuel => exact absurd hc hf
  simp only [MsgPublish.readFrom]
  rcases hr1 : readStr (LimitedReader d L) with ⟨⟨v1, e1⟩, lr1⟩
  cases e1 with
  | some err => simp
  | none =>
    simp only
    rcases hq : Header.Qos h with ⟨q, eq⟩
    cases eq with
    | some err => simp
    | none =>
      simp only
      by_cases hge : q ≥ QosAtLeastOnce
      · simp only [hge, if_true]
        rcases hr2 : readUint16 lr1 with ⟨⟨v2, e2⟩, lr2⟩
        cases e2 with
        | some err => simp
        | none => exact tail { H := h, Topic := v1, MsgId := v2 } lr2
      · simp only [hge, if_false]
        exact tail { H := h, Topic := v1, MsgId := m.MsgId } lr1

theorem MsgSubscribe_readFrom_fuel (m : MsgSubscribe) (d : List Nat) (h L : Nat) :
    MsgSubscribe.readFrom m d h L ≠ Run.outOfFuel := by
  simp only [MsgSubscribe.readFrom]
  rcases hr1 : readUint16 (LimitedReader d L) with ⟨⟨v1, e1⟩, lr1⟩
  cases e1 with
  | some err => simp
  | none =>
    simp only
    have hf := MsgSubscribe_readTopics_fuel lr1.limitN lr1 { H := h, MsgId := v1, Topics := m.Topics } (le_refl _)
    cases hc : MsgSubscribe.readTopics lr1.limitN lr1 { H := h, MsgId := v1, Topics := m.Topics } with
    | ret a =>
      obtain ⟨⟨mm, e⟩, lr3⟩ := a
      cases e with
      | some err => simp
      | none =>
        simp only
        split_ifs <;> simp
    | panic => simp
    | outOfFuel => exact absurd hc hf

theorem MsgSubAck_readFrom_fuel (m : MsgSubAck) (d : List Nat) (h L : Nat) :
    MsgSubAck.readFrom m d h L ≠ Run.outOfFuel := by
  simp only [MsgSubAck.readFrom]
  rcases hr1 : readUint16 (LimitedReader d L) with ⟨⟨v1, e1⟩, lr1⟩
  cases e1 with
  | some err => simp
  | none =>
    simp only
    have hf := MsgSubAck_readQos_fuel lr1.limitN lr1 { H := h, MsgId := v1, GrantedQos := m.GrantedQos } (le_refl _)
    cases hc : MsgSubAck.readQos lr1.limitN lr1 { H := h, MsgId := v1, GrantedQos := m.GrantedQos } with
    | ret a =>
      obtain ⟨⟨mm, e⟩, lr3⟩ := a
      cases e with
      | some err => simp
      | none =>
        simp only
        split_ifs <;> simp
    | panic => simp
    | outOfFuel => exact absurd hc hf

theorem MsgUnsubscribe_readFrom_fuel (m : MsgUnsubscribe) (d : List Nat) (h L : Nat) :
    MsgUnsubscribe.readFrom m d h L ≠ Run.outOfFuel := by
  simp only [MsgUnsubscribe.readFrom]
  rcases hr1 : readUint16 (LimitedReader d L) with ⟨⟨v1, e1⟩, lr1⟩
  cases e1 with
  | some err => simp
  | none =>
    simp only
    have hf := MsgUnsubscribe_readTopics_fuel lr1.limitN lr1 { H := h, MsgId := v1, Topics := m.Topics } (le_refl _)
    cases hc : MsgUnsubscribe.readTopics lr1.limitN lr1 { H := h, MsgId := v1, Topics := m.Topics } with
    | ret a =>
      obtain ⟨⟨mm, e⟩, lr3⟩ := a
      cases e with
      | some err => simp
      | none =>
        simp only
        split_ifs <;> simp
    | panic => simp
    | outOfFuel => exact absurd hc hf

theorem Msg_readFrom_ne_outOfFuel (msg : Msg) (d : List Nat) (h L : Nat) :
    Msg.readFrom msg d h L ≠ Run.outOfFuel := by
  cases msg with
  | MsgPublish m =>
    have hf := MsgPublish_readFrom_fuel m d h L
    simp only [Msg.readFrom]
    cases hc : MsgPublish.readFrom m d h L with
    | ret a => obtain ⟨⟨m2, e⟩, s2⟩ := a; simp [Run.wrap]
    | panic => simp [Run.wrap]
    | outOfFuel => exact absurd hc hf
  | MsgSubscribe m =>
    have hf := MsgSubscribe_readFrom_fuel m d h L
    simp only [Msg.readFrom]
    cases hc : MsgSubscribe.readFrom m d h L with
    | ret a => obtain ⟨⟨m2, e⟩, s2⟩ := a; simp [Run.wrap]
    | panic => simp [Run.wrap]
    | outOfFuel => exact absurd hc hf
  | MsgSubAck m =>
    have hf := MsgSubAck_readFrom_fuel m d h L
    simp only [Msg.readFrom]
    cases hc : MsgSubAck.readFrom m d h L with
    | ret a => obtain ⟨⟨m2, e⟩, s2⟩ := a; simp [Run.wrap]
    | panic => simp [Run.wrap]
    | outOfFuel => exact absurd hc hf
  | MsgUnsubscribe m =>
    have hf := MsgUnsubscribe_readFrom_fuel m d h L
    simp only [Msg.readFrom]
    cases hc : MsgUnsubscribe.readFrom m d h L with
    | ret a => obtain ⟨⟨m2, e⟩, s2⟩ := a; simp [Run.wrap]
    | panic => simp [Run.wrap]
    | outOfFuel => exact absurd hc hf
  | _ => simp [Msg.readFrom, Run.wrap]

/-- The loop bounds of the embedding are never used up: `Read` returns or panics. -/
theorem Read_ne_outOfFuel (r : List Nat) : Read r ≠ Run.outOfFuel := by
  simp only [Read]
  rcases hh : Header.readFrom 0 ⟨r, none⟩ with ⟨⟨hb, e⟩, r1⟩
  cases e with
  | some err => simp
  | none =>
    simp only
    rcases hl : readMsgLen r1 with ⟨⟨l, e1⟩, r2⟩
    cases e1 with
    | some err => simp
    | none =>
      simp only
      cases hv : Header.Validate hb l with
      | some err => simp
      | none =>
        simp only
        split_ifs with ht
        · simp
        · cases hreg : msgRegistry (Header.Type hb) with
          | none => simp
          | some msg =>
            simp only
            have hf := Msg_readFrom_ne_outOfFuel msg r2.data hb l
            cases hrf : Msg.readFrom msg r2.data hb l with
            | ret a =>
              obtain ⟨⟨m2, e2⟩, s2⟩ := a
              cases e2 <;> simp
            | panic => simp
            | outOfFuel => exact absurd hrf hf

/-! ## Helper lemmas: decoding from a bounded reader -/

theorem ReadFull_lim (p rest : List Nat) (n : Nat) (hn : p.length ≤ n) :
    ReadFull ⟨p ++ rest, some n⟩ p.length = (Except.ok p, ⟨rest, some (n - p.length)⟩) := by
  cases p with
  | nil => simp [ReadFull]
  | cons a l =>
    have h1 : (a :: l).length ≤ (List.take n (a :: l ++ rest)).length := by
      simp only [List.length_take, List.length_append, List.length_cons] at hn ⊢
      omega
    have h2 : List.take (a :: l).length (List.take n (a :: l ++ rest)) = a :: l := by
      rw [List.take_take, Nat.min_eq_left hn, List.take_left']
      rfl
    simp only [ReadFull, Reader.avail, h1, if_true, h2, Reader.advance,
      List.drop_left', Option.map_some']
    simp

theorem readLen4Loop_lim (enc : List Nat) :
    ∀ (i val sh : Nat) (rest : List Nat) (n : Nat), enc ≠ [] → enc.length ≤ i →
      (∀ b ∈ enc.dropLast, b &&& 0x80 ≠ 0) → (∀ b ∈ enc.getLast?, b &&& 0x80 = 0) →
      val < 2 ^ sh → sh + 7 * enc.length ≤ 32 → enc.length ≤ n →
      readLen4Loop i val sh ⟨enc ++ rest, some n⟩
        = ((val + varintSum enc sh, none), ⟨rest, some (n - enc.length)⟩) := by
  induction enc with
  | nil => intro i val sh rest n h; exact absurd rfl h
  | cons b bs ih =>
    intro i val sh rest n _ hlen hcont hlast hval hsh hn
    obtain ⟨j, rfl⟩ : ∃ j, i = j + 1 := ⟨i - 1, by simp at hlen; omega⟩
    have hkey := readLen4_step_val b val sh hval (by simp at hsh; omega)
    have hn1 : 1 ≤ n := by simp at hn; omega
    have hrf : ReadFull ⟨b :: (bs ++ rest), some n⟩ 1
        = (Except.ok [b], ⟨bs ++ rest, some (n - 1)⟩) := by
      have := ReadFull_lim [b] (bs ++ rest) n (by simpa using hn1)
      simpa using this
    cases bs with
    | nil =>
      have hb : b &&& 0x80 = 0 := hlast b (by simp)
      simp only [List.nil_append] at hrf
      simp only [readLen4Loop, List.cons_append, List.nil_append, hrf,
        List.headD_cons, hkey, hb, if_true, varintSum, Nat.add_zero, List.length_singleton]
    | cons c cs =>
      have hb : b &&& 0x80 ≠ 0 := hcont b (by simp)
      have hrec := ih j (val + (b &&& 0x7f) <<< sh) (sh + 7) rest (n - 1) (by simp)
        (by simp at hlen ⊢; omega)
        (fun x hx => hcont x (by simp [List.dropLast] at hx ⊢; exact Or.inr hx))
        (fun x hx => hlast x (by simpa using hx))
        (readLen4_step_lt b val sh hval) (by simp at hsh ⊢; omega)
        (by simp at hn ⊢; omega)
      simp only [List.cons_append] at hrec hrf
      simp only [readLen4Loop, List.cons_append, hrf,
        List.headD_cons, hkey, if_neg hb, hrec]
      simp only [varintSum, Nat.add_assoc, List.length_cons, Nat.sub_sub]
      congr 3
      omega

theorem readStr_lim (enc s rest : List Nat) (n : Nat) (h : IsStrField enc s)
    (hn : enc.length + s.length ≤ n) :
    readStr ⟨enc ++ (s ++ rest), some n⟩
      = ((s, none), ⟨rest, some (n - (enc.length + s.length))⟩) := by
  obtain ⟨hk1, hk4, hcont, hlast, hlen⟩ := h
  have h1 := readLen4Loop_lim enc 4 0 0 (s ++ rest) n
    (by intro h; simp [h] at hk1) hk4 hcont hlast (by norm_num) (by omega) (by omega)
  have h2 := ReadFull_lim s rest (n - enc.length) (by omega)
  simp only [Nat.zero_add, hlen] at h1
  simp only [readStr, readLen4, h1, h2, Nat.sub_sub]

theorem readUint8_lim (b : Nat) (rest : List Nat) (n : Nat) (hn : 1 ≤ n) :
    readUint8 ⟨b :: rest, some n⟩ = ((b, none), ⟨rest, some (n - 1)⟩) := by
  have h := ReadFull_lim [b] rest n (by simpa using hn)
  simp only [List.singleton_append, List.length_singleton] at h
  simp only [readUint8, h, List.headD_cons]

theorem readUint16_lim (hi lo : Nat) (rest : List Nat) (n : Nat) (hn : 2 ≤ n) :
    readUint16 ⟨hi :: lo :: rest, some n⟩
      = ((((hi <<< 8) % 2 ^ 16) ||| lo, none), ⟨rest, some (n - 2)⟩) := by
  have h := ReadFull_lim [hi, lo] rest n (by simpa using hn)
  simp only [List.cons_append, List.nil_append, List.length_cons, List.length_nil] at h
  simp only [readUint16, h]
  rfl

theorem uint16_bigEndian (hi lo : Nat) (hhi : hi < 256) (hlo : lo < 256) :
    ((hi <<< 8) % 2 ^ 16) ||| lo = hi * 256 + lo := by
  have h1 : hi <<< 8 < 2 ^ 16 := by
    rw [Nat.shiftLeft_eq]
    omega
  rw [Nat.mod_eq_of_lt h1, Nat.or_comm, or_shiftLeft_eq_add lo hi 8 (by simpa using hlo),
    Nat.shiftLeft_eq]
  omega

theorem MsgPublish_readContent_done (fuel : Nat) (lr : Reader) (filled : List Nat)
    (h : lr.limitN = 0) :
    MsgPublish.readContent fuel lr filled = Run.ret ((filled, none), lr) := by
  have h0 : ¬ lr.limitN > 0 := by omega
  cases fuel <;> simp [MsgPublish.readContent, h0]

theorem MsgPublish_readContent_lim (content rest filled : List Nat) (n : Nat)
    (hn : n = content.length) :
    MsgPublish.readContent n ⟨content ++ rest, some n⟩ filled
      = Run.ret ((filled ++ content, none), ⟨rest, some 0⟩) := by
  subst hn
  cases content with
  | nil => simp [MsgPublish.readContent, Reader.limitN]
  | cons a l =>
    have hread : Reader.Read ⟨a :: l ++ rest, some (a :: l).length⟩ (a :: l).length
        = ((a :: l, none), ⟨rest, some 0⟩) := by
      have h2 : List.take (a :: l).length (List.take (a :: l).length (a :: l ++ rest))
          = a :: l := by
        rw [List.take_take, Nat.min_self, List.take_left']
        rfl
      simp only [Reader.Read, Reader.avail, h2, Reader.advance, List.drop_left',
        Option.map_some', Nat.sub_self]
      simp
    have hN : Reader.limitN ⟨a :: l ++ rest, some (a :: l).length⟩ = (a :: l).length := rfl
    have hpos : (a :: l).length > 0 := by simp
    rw [show (a :: l).length = l.length + 1 from rfl] at hread hN hpos ⊢
    simp only [MsgPublish.readContent, hN, hpos, if_true, hread]
    exact MsgPublish_readContent_done _ _ _ rfl

theorem wirePairs_length_ge (ps : List WirePair)
    (h : ∀ p ∈ ps, IsStrField p.enc p.topic) : ps.length ≤ (wirePairs ps).length := by
  induction ps with
  | nil => simp
  | cons p ps ih =>
    have := ih (fun q hq => h q (List.mem_cons_of_mem _ hq))
    simp only [wirePairs, List.length_cons, List.length_append]
    omega

theorem MsgSubscribe_readTopics_done (fuel : Nat) (lr : Reader) (m : MsgSubscribe)
    (h : lr.limitN = 0) :
    MsgSubscribe.readTopics fuel lr m = Run.ret ((m, none), lr) := by
  have h0 : ¬ lr.limitN > 0 := by omega
  cases fuel <;> simp [MsgSubscribe.readTopics, h0]

theorem MsgSubscribe_readTopics_pairs (ps : List WirePair) :
    ∀ (F : Nat) (m : MsgSubscribe) (t : List Nat) (n N : Nat),
      (∀ p ∈ ps, IsStrField p.enc p.topic) → ps.length ≤ F →
      N = (wirePairs ps).length + n →
      MsgSubscribe.readTopics F ⟨wirePairs ps ++ t, some N⟩ m
        = MsgSubscribe.readTopics (F - ps.length) ⟨t, some n⟩
            { m with Topics := m.Topics ++ ps.map (fun p => (p.topic, p.qos)) } := by
  induction ps with
  | nil =>
    intro F m t n N _ _ hN
    simp only [wirePairs, List.length_nil, Nat.zero_add] at hN
    subst hN
    simp [wirePairs]
  | cons p ps ih =>
    intro F m t n N hwf hF hN
    obtain ⟨G, rfl⟩ : ∃ G, F = G + 1 := ⟨F - 1, by simp at hF; omega⟩
    have hp := hwf p (List.mem_cons_self _ _)
    simp only [wirePairs, List.length_append, List.length_cons] at hN
    have h1 := readStr_lim p.enc p.topic (p.qos :: (wirePairs ps ++ t)) N hp (by omega)
    have h2 := readUint8_lim p.qos (wirePairs ps ++ t) (N - (p.enc.length + p.topic.length))
      (by omega)
    have hpos : Reader.limitN ⟨p.enc ++ (p.topic ++ (p.qos :: (wirePairs ps ++ t))), some N⟩
        > 0 := by
      have := hp.1
      simp only [Reader.limitN, Option.getD_some]
      omega
    have hrec := ih G { m with Topics := m.Topics ++ [(p.topic, p.qos)] } t n
      (N - (p.enc.length + p.topic.length) - 1)
      (fun q hq => hwf q (List.mem_cons_of_mem _ hq)) (by simp at hF; omega) (by omega)
    simp only [wirePairs, List.append_assoc, List.cons_append, MsgSubscribe.readTopics,
      hpos, if_true, h1, h2, hrec, List.map_cons, List.length_cons, Nat.add_sub_add_right,
      List.singleton_append, List.nil_append]

theorem MsgSubscribe_readTopics_short (F : Nat) (m : MsgSubscribe)
    (enc topic rest : List Nat) (N : Nat) (h : IsStrField enc topic) (hF : 1 ≤ F)
    (hN : N = enc.length + topic.length) :
    MsgSubscribe.readTopics F ⟨enc ++ (topic ++ rest), some N⟩ m
      = Run.ret ((m, some Error.EOF), ⟨rest, some 0⟩) := by
  obtain ⟨G, rfl⟩ : ∃ G, F = G + 1 := ⟨F - 1, by omega⟩
  have h1 := readStr_lim enc topic rest N h (by omega)
  have hpos : Reader.limitN ⟨enc ++ (topic ++ rest), some N⟩ > 0 := by
    have := h.1
    simp only [Reader.limitN, Option.getD_some]
    omega
  have h0 : N - (enc.length + topic.length) = 0 := by omega
  rw [h0] at h1
  have h2 : readUint8 ⟨rest, some 0⟩ = ((0, some Error.EOF), ⟨rest, some 0⟩) := by
    simp [readUint8, ReadFull, Reader.avail]
  simp only [MsgSubscribe.readTopics, hpos, if_true, h1, h2]

/-- The content buffer of a Publish message is never larger than the declared remaining
length `L`: it is sized from `lr.N` after the reads through the bounded reader. -/
theorem Publish_contentBuf_bounded (d : List Nat) (L : Nat) (lr : Reader)
    (hs : Reader.Steps (LimitedReader d L) lr) : MsgPublish.contentBufSize lr ≤ L := by
  obtain ⟨j, _, rfl⟩ := hs
  simp [MsgPublish.contentBufSize, Reader.limitN, LimitedReader, Reader.advance]

/-! ## Helper lemmas: encoding errors and the range of readLen4 -/

theorem writeMsgData_tooLong (w : Writer) (h : Header) (p : List Nat)
    (hp : p.length = 268435456) :
    writeMsgData w h p = (some Error.len4OutOfRange, w ++ [h]) := by
  have h1 : len4.bytes (268435456 % 2 ^ 32) = ([], some Error.len4OutOfRange) := by decide
  simp only [writeMsgData, writeUint8, Writer.Write, hp, len4.writeTo, h1]

theorem MsgPublish_writeTo_lenError (m : MsgPublish) (w b : Writer) (q : QosLevel)
    (e : Error) (h0 : str.writeTo m.Topic [] = (none, b)) (h1 : Header.Qos m.H = (q, none))
    (h2 : ¬ q ≥ QosAtLeastOnce)
    (h3 : len4.bytes ((b.length + m.Content.length) % 2 ^ 32) = ([], some e)) :
    MsgPublish.writeTo m w = (some e, w ++ [m.H]) := by
  unfold MsgPublish.writeTo
  rw [h0]
  simp only []
  rw [h1]
  simp only [if_neg h2, writeUint8, Writer.Write, len4.writeTo, h3]

theorem MsgPublish_writeTo_tooLong (w : Writer) (c : List Nat)
    (hc : c.length = 268435456) :
    MsgPublish.writeTo { H := 0x30, Topic := [], MsgId := 0, Content := c } w
      = (some Error.len4OutOfRange, w ++ [0x30]) := by
  have h0 : str.writeTo [] [] = (none, [0]) := by decide
  have h1 : Header.Qos 0x30 = (0, none) := by decide
  have h2 : ¬ (0 : QosLevel) ≥ QosAtLeastOnce := by decide
  have h3 : len4.bytes (268435457 % 2 ^ 32) = ([], some Error.len4OutOfRange) := by decide
  have h4 : len4.bytes ((([0] : List Nat).length + c.length) % 2 ^ 32)
      = ([], some Error.len4OutOfRange) := by
    rw [hc, List.length_singleton]
    exact h3
  exact MsgPublish_writeTo_lenError { H := 0x30, Topic := [], MsgId := 0, Content := c } w [0] 0
    Error.len4OutOfRange h0 h1 h2 h4

theorem Write_Publish_tooLong (c : List Nat) (hc : c.length = 268435456) :
    Write [] (Msg.MsgPublish { H := 0x30, Topic := [], MsgId := 0, Content := c })
      = (some Error.len4OutOfRange, [0x30]) := by
  have h := MsgPublish_writeTo_tooLong [] c hc
  simpa [Write, Msg.writeTo] using h

theorem writeMsgData_nil_tooLong (h : Header) (p : List Nat) (hp : p.length = 268435456) :
    writeMsgData [] h p = (some Error.len4OutOfRange, [h]) := by
  have h1 := writeMsgData_tooLong [] h p hp
  simpa using h1

theorem Header_bytes_tooLong :
    Header.bytes 0x30 268435456 = ([], some Error.len4OutOfRange) := by
  decide

theorem readLen4Loop_val_lt (i : Nat) :
    ∀ (val sh : Nat) (r : Reader), val < 2 ^ sh → sh + 7 * i ≤ 28 →
      (readLen4Loop i val sh r).1.1 < 2 ^ (sh + 7 * i) := by
  induction i with
  | zero => intro val sh r hval _; simpa [readLen4Loop] using hval
  | succ j ih =>
    intro val sh r hval hsh
    have hmono : (2 : Nat) ^ (sh + 7) ≤ 2 ^ (sh + 7 * (j + 1)) :=
      Nat.pow_le_pow_right (by norm_num) (by omega)
    have hmono0 : (2 : Nat) ^ sh ≤ 2 ^ (sh + 7 * (j + 1)) :=
      Nat.pow_le_pow_right (by norm_num) (by omega)
    simp only [readLen4Loop]
    rcases hrf : ReadFull r 1 with ⟨res, r1⟩
    cases res with
    | error e => exact lt_of_lt_of_le hval hmono0
    | ok buf =>
      have hkey := readLen4_step_val (buf.headD 0) val sh hval (by omega)
      have hlt := readLen4_step_lt (buf.headD 0) val sh hval
      simp only [hkey]
      split_ifs
      · exact lt_of_lt_of_le hlt hmono
      · have := ih (val + (buf.headD 0 &&& 0x7f) <<< sh) (sh + 7) r1 hlt (by omega)
        have he : sh + 7 + 7 * j = sh + 7 * (j + 1) := by omega
        rw [he] at this
        exact this

/-! ## Helper lemmas: the errors of the Subscribe decoder -/

theorem ReadFull_err (r : Reader) (n : Nat) (e : Error) (r1 : Reader)
    (h : ReadFull r n = (Except.error e, r1)) :
    e = Error.EOF ∨ e = Error.ErrUnexpectedEOF := by
  unfold ReadFull at h
  split_ifs at h with h0 h1 h2
  · simp only [Prod.mk.injEq, reduceCtorEq, false_and] at h
  · simp only [Prod.mk.injEq, reduceCtorEq, false_and] at h
  · simp only [Prod.mk.injEq, Except.error.injEq] at h
    exact Or.inl h.1.symm
  · simp only [Prod.mk.injEq, Except.error.injEq] at h
    exact Or.inr h.1.symm

theorem readLen4Loop_err (i : Nat) :
    ∀ (val sh : Nat) (r : Reader),
      (readLen4Loop i val sh r).1.2 ≠ some Error.ErrWrongLength := by
  induction i with
  | zero =>
    intro val sh r
    simp [readLen4Loop]
  | succ k ih =>
    intro val sh r
    simp only [readLen4Loop]
    rcases hr : ReadFull r 1 with ⟨res, r1⟩
    cases res with
    | error e =>
      rcases ReadFull_err r 1 e r1 hr with rfl | rfl <;> simp
    | ok buf =>
      simp only
      split_ifs
      · simp
      · exact ih _ _ _

theorem readStr_err (r : Reader) : (readStr r).1.2 ≠ some Error.ErrWrongLength := by
  have h1 := readLen4Loop_err 4 0 0 r
  simp only [readStr, readLen4]
  rcases hr : readLen4Loop 4 0 0 r with ⟨⟨l, e⟩, r1⟩
  rw [hr] at h1
  cases e with
  | some err => simpa using h1
  | none =>
    simp only
    rcases hr2 : ReadFull r1 l with ⟨res, r2⟩
    cases res with
    | error e =>
      rcases ReadFull_err r1 l e r2 hr2 with rfl | rfl <;> simp
    | ok p => simp

theorem readUint8_err (r : Reader) : (readUint8 r).1.2 ≠ some Error.ErrWrongLength := by
  simp only [readUint8]
  rcases hr : ReadFull r 1 with ⟨res, r1⟩
  cases res with
  | error e => rcases ReadFull_err r 1 e r1 hr with rfl | rfl <;> simp
  | ok p => simp

theorem readUint16_err (r : Reader) : (readUint16 r).1.2 ≠ some Error.ErrWrongLength := by
  simp only [readUint16]
  rcases hr : ReadFull r 2 with ⟨res, r1⟩
  cases res with
  | error e => rcases ReadFull_err r 2 e r1 hr with rfl | rfl <;> simp
  | ok p => simp

theorem MsgSubscribe_readTopics_end (fuel : Nat) :
    ∀ (lr : Reader) (m m1 : MsgSubscribe) (e : Option Error) (lr1 : Reader),
      MsgSubscribe.readTopics fuel lr m = Run.ret ((m1, e), lr1) →
      e ≠ some Error.ErrWrongLength ∧ (e = none → lr1.limitN = 0) := by
  induction fuel with
  | zero =>
    intro lr m m1 e lr1 hok
    simp only [MsgSubscribe.readTopics] at hok
    split_ifs at hok with hN
    simp only [Run.ret.injEq, Prod.mk.injEq] at hok
    obtain ⟨⟨_, rfl⟩, rfl⟩ := hok
    exact ⟨by simp, fun _ => by omega⟩
  | succ k ih =>
    intro lr m m1 e lr1 hok
    simp only [MsgSubscribe.readTopics] at hok
    split_ifs at hok with hN
    · have a1 := readStr_err lr
      rcases hr1 : readStr lr with ⟨⟨v1, e1⟩, lr2⟩
      rw [hr1] at hok a1
      cases e1 with
      | some err =>
        simp only [Run.ret.injEq, Prod.mk.injEq] at hok
        obtain ⟨⟨_, rfl⟩, rfl⟩ := hok
        exact ⟨a1, fun h => by cases h⟩
      | none =>
        simp only at hok
        have a2 := readUint8_err lr2
        rcases hr2 : readUint8 lr2 with ⟨⟨v2, e2⟩, lr3⟩
        rw [hr2] at hok a2
        cases e2 with
        | some err =>
          simp only [Run.ret.injEq, Prod.mk.injEq] at hok
          obtain ⟨⟨_, rfl⟩, rfl⟩ := hok
          exact ⟨a2, fun h => by cases h⟩
        | none =>
          simp only at hok
          exact ih lr3 _ m1 e lr1 hok
    · simp only [Run.ret.injEq, Prod.mk.injEq] at hok
      obtain ⟨⟨_, rfl⟩, rfl⟩ := hok
      exact ⟨by simp, fun _ => by omega⟩

theorem MsgSubscribe_readFrom_not_wrongLength (m m1 : MsgSubscribe) (d s : List Nat)
    (h L : Nat) :
    MsgSubscribe.readFrom m d h L ≠ Run.ret ((m1, some Error.ErrWrongLength), s) := by
  intro hok
  simp only [MsgSubscribe.readFrom] at hok
  have a1 := readUint16_err (LimitedReader d L)
  rcases hr1 : readUint16 (LimitedReader d L) with ⟨⟨v1, e1⟩, lr1⟩
  rw [hr1] at hok a1
  cases e1 with
  | some err =>
    simp only [Run.ret.injEq, Prod.mk.injEq] at hok
    exact a1 (by rw [hok.1.2])
  | none =>
    simp only at hok
    cases hc : MsgSubscribe.readTopics lr1.limitN lr1 { H := h, MsgId := v1, Topics := m.Topics } with
    | ret a =>
      obtain ⟨⟨m2, e2⟩, lr2⟩ := a
      rw [hc] at hok
      obtain ⟨b1, b2⟩ := MsgSubscribe_readTopics_end _ _ _ _ _ _ hc
      cases e2 with
      | some err =>
        simp only [Run.ret.injEq, Prod.mk.injEq] at hok
        exact b1 (by rw [hok.1.2])
      | none =>
        simp only [b2 rfl, ne_eq, not_true_eq_false, if_false, Run.ret.injEq, Prod.mk.injEq] at hok
        cases hok.1.2
    | panic => rw [hc] at hok; cases hok
    | outOfFuel => rw [hc] at hok; cases hok

/-! ## Claims -/

/-- C1 (does not hold on the code): the VarLength round trip. At `v = 127`, `len4.bytes`
returns no byte at all (and no error), so `readLen4` on the returned bytes fails with
`io.EOF`; at `v = 128` it returns the single byte `0x80` and `readLen4` fails as well. -/
theorem len4_roundtrip_fails_at_127 :
    len4.bytes 127 = ([], none)
      ∧ readLen4 ⟨(len4.bytes 127).1, none⟩ = ((0, some Error.EOF), ⟨[], none⟩)
      ∧ readLen4 ⟨(len4.bytes 128).1, none⟩ = ((0, some Error.EOF), ⟨[], none⟩) := by
  decide

/-- C2 (does not hold on the code): the VarLength encode format. `len4.bytes` leaves out
the last byte (the one without continuation bit): 127 gives `[]` instead of `[0x7F]`,
128 gives `[0x80]` instead of `[0x80, 0x01]`, 16384 gives `[0x80, 0x80]` instead of
`[0x80, 0x80, 0x01]`. -/
theorem len4_bytes_drops_last_byte :
    len4.bytes 127 = ([], none) ∧ len4.bytes 128 = ([0x80], none)
      ∧ len4.bytes 16384 = ([0x80, 0x80], none) := by
  decide

/-- C3: `len4(0).bytes()` succeeds and returns exactly the single byte `[0x00]`. -/
theorem len4_bytes_zero : len4.bytes 0 = ([0x00], none) := by
  decide

/-- C4: for every 32-bit value `v`, `len4(v).bytes()` returns an error if and only if
`v > 268,435,455`; the error is the out-of-range error. -/
theorem len4_bytes_error_iff (v : Nat) (hv : v < 2 ^ 32) :
    ((len4.bytes v).2 ≠ none ↔ 268435455 < v)
      ∧ ((len4.bytes v).2 = some Error.len4OutOfRange ↔ 268435455 < v) := by
  unfold len4.bytes
  by_cases h0 : v = 0
  · subst h0; simp
  · simp only [h0, if_false, len4.bytesLoop, Nat.shiftRight_eq_div_pow]
    by_cases h1 : v / 2 ^ 7 > 0
    · by_cases h2 : v / 2 ^ 7 / 2 ^ 7 > 0
      · by_cases h3 : v / 2 ^ 7 / 2 ^ 7 / 2 ^ 7 > 0
        · by_cases h4 : v / 2 ^ 7 / 2 ^ 7 / 2 ^ 7 / 2 ^ 7 > 0
          · simp only [h1, h2, h3, h4, if_true]; simp; omega
          · simp only [h1, h2, h3, h4, if_true, if_false]; simp; omega
        · simp only [h1, h2, h3, if_true, if_false]; simp; omega
      · simp only [h1, h2, if_true, if_false]; simp; omega
    · simp only [h1, if_false]; simp; omega

theorem len4_bytes_error_iff_witness :
    268435456 < 2 ^ 32
      ∧ ((len4.bytes 268435456).2 ≠ none ↔ 268435455 < 268435456)
      ∧ ((len4.bytes 268435456).2 = some Error.len4OutOfRange ↔ 268435455 < 268435456) :=
  ⟨by norm_num, len4_bytes_error_iff 268435456 (by norm_num)⟩

/-- C5: for every stream that starts with `k` bytes (`1 ≤ k ≤ 4`) of which all but the
last have the high bit set and the last has it clear, `readLen4` succeeds, returns the
sum over `i` of `(b_i & 0x7F) << (7*i)`, and consumes exactly those `k` bytes, leaving
the rest of the stream unread. -/
theorem readLen4_decodes (enc rest : List Nat)
    (hk1 : 1 ≤ enc.length) (hk4 : enc.length ≤ 4)
    (hcont : ∀ b ∈ enc.dropLast, b &&& 0x80 ≠ 0)
    (hlast : ∀ b ∈ enc.getLast?, b &&& 0x80 = 0) :
    readLen4 ⟨enc ++ rest, none⟩ = ((varintSum enc 0, none), ⟨rest, none⟩) :=
  readLen4_of_wellFormed enc rest hk1 hk4 hcont hlast

theorem readLen4_decodes_witness :
    readLen4 ⟨[0x80, 0x80, 0x01] ++ [0xAA, 0xBB], none⟩
      = ((varintSum [0x80, 0x80, 0x01] 0, none), ⟨[0xAA, 0xBB], none⟩)
      ∧ varintSum [0x80, 0x80, 0x01] 0 = 16384 :=
  ⟨readLen4_decodes [0x80, 0x80, 0x01] [0xAA, 0xBB] (by decide) (by decide)
    (by decide) (by decide), by decide⟩

/-- C6: for every stream whose first four bytes all have the high bit set, `readLen4`
returns the bad-format error (not an I/O error) after consuming exactly four bytes; and
on any reader `r` whatsoever `readLen4` consumes `k ≤ 4` bytes. -/
theorem readLen4_rejects_malformed (b0 b1 b2 b3 : Nat) (rest : List Nat)
    (h0 : b0 &&& 0x80 ≠ 0) (h1 : b1 &&& 0x80 ≠ 0) (h2 : b2 &&& 0x80 ≠ 0)
    (h3 : b3 &&& 0x80 ≠ 0) (r : Reader) :
    (readLen4 ⟨b0 :: b1 :: b2 :: b3 :: rest, none⟩).1.2 = some Error.readLen4BadFormat
      ∧ (readLen4 ⟨b0 :: b1 :: b2 :: b3 :: rest, none⟩).2 = ⟨rest, none⟩
      ∧ ∃ k, k ≤ 4 ∧ (readLen4 r).2 = r.advance k
          ∧ (readLen4 r).2.data = r.data.drop k := by
  refine ⟨?_, ?_, ?_⟩
  · simp only [readLen4, readLen4Loop, ReadFull_one_cons, List.headD_cons, if_neg h0,
      if_neg h1, if_neg h2, if_neg h3]
  · simp only [readLen4, readLen4Loop, ReadFull_one_cons, List.headD_cons, if_neg h0,
      if_neg h1, if_neg h2, if_neg h3]
  · obtain ⟨k, hk, hk2⟩ := readLen4Loop_consumes 4 0 0 r
    exact ⟨k, hk, hk2, by rw [readLen4, hk2]; rfl⟩

theorem readLen4_rejects_malformed_witness :
    (readLen4 ⟨0xFF :: 0x80 :: 0x80 :: 0x80 :: [0x07], none⟩).1.2
        = some Error.readLen4BadFormat
      ∧ (readLen4 ⟨0xFF :: 0x80 :: 0x80 :: 0x80 :: [0x07], none⟩).2 = ⟨[0x07], none⟩
      ∧ ∃ k, k ≤ 4 ∧ (readLen4 ⟨[0x80, 0x01, 0x09], none⟩).2
            = Reader.advance ⟨[0x80, 0x01, 0x09], none⟩ k
          ∧ (readLen4 ⟨[0x80, 0x01, 0x09], none⟩).2.data
            = List.drop k (Reader.data ⟨[0x80, 0x01, 0x09], none⟩) :=
  readLen4_rejects_malformed 0xFF 0x80 0x80 0x80 [0x07] (by decide) (by decide)
    (by decide) (by decide) ⟨[0x80, 0x01, 0x09], none⟩

/-- C7 (does not hold on the code): the string field round trip. For the one-byte
string `"a"` (`0x61`), `str.writeTo` writes only `[0x61]`: the length prefix is
missing, because `len4.bytes` returns no byte for the length 1. `readStr` then takes
`0x61` as the length 97 and fails with `io.EOF`. -/
theorem str_roundtrip_fails_at_one_byte :
    str.writeTo [0x61] [] = (none, [0x61])
      ∧ readStr ⟨(str.writeTo [0x61] []).2, none⟩ = (([], some Error.EOF), ⟨[], none⟩) := by
  decide

/-- C8: for every stream made of a well-formed VarLength encoding of `n` (also `n = 0`,
the empty string) followed by at least `n` bytes, `readStr` returns exactly the next `n`
bytes and leaves all later bytes unread; if fewer than `n` bytes follow (`tail`), it
returns no string and `io.EOF` (when nothing follows) or `io.ErrUnexpectedEOF`. -/
theorem readStr_decodes (enc payload rest tail : List Nat)
    (hk1 : 1 ≤ enc.length) (hk4 : enc.length ≤ 4)
    (hcont : ∀ b ∈ enc.dropLast, b &&& 0x80 ≠ 0)
    (hlast : ∀ b ∈ enc.getLast?, b &&& 0x80 = 0)
    (hlen : payload.length = varintSum enc 0) :
    readStr ⟨enc ++ (payload ++ rest), none⟩ = ((payload, none), ⟨rest, none⟩)
      ∧ (tail.length < varintSum enc 0 →
          (readStr ⟨enc ++ tail, none⟩).1
            = ([], some (if tail.length = 0 then Error.EOF else Error.ErrUnexpectedEOF))) := by
  constructor
  · simp only [readStr, readLen4_of_wellFormed enc (payload ++ rest) hk1 hk4 hcont hlast,
      ← hlen, ReadFull_append]
  · intro hshort
    have h := ReadFull_short tail (varintSum enc 0) hshort
    simp only [readStr, readLen4_of_wellFormed enc tail hk1 hk4 hcont hlast]
    revert h
    cases ReadFull ⟨tail, none⟩ (varintSum enc 0) with
    | mk res r2 =>
      intro h
      simp only at h
      subst h
      rfl

theorem readStr_decodes_witness :
    readStr ⟨[0x00] ++ ([] ++ [0x07]), none⟩ = (([], none), ⟨[0x07], none⟩)
      ∧ readStr ⟨[0x02] ++ ([0x68, 0x69] ++ [0x07]), none⟩
          = (([0x68, 0x69], none), ⟨[0x07], none⟩)
      ∧ (readStr ⟨[0x02] ++ [0x68], none⟩).1
          = ([], some (if [0x68].length = 0 then Error.EOF else Error.ErrUnexpectedEOF)) :=
  ⟨(readStr_decodes [0x00] [] [0x07] [] (by decide) (by decide) (by decide) (by decide)
      (by decide)).1,
    (readStr_decodes [0x02] [0x68, 0x69] [0x07] [0x68] (by decide) (by decide)
      (by decide) (by decide) (by decide)).1,
    (readStr_decodes [0x02] [0x68, 0x69] [0x07] [0x68] (by decide) (by decide)
      (by decide) (by decide) (by decide)).2 (by decide)⟩

set_option maxRecDepth 100000 in
/-- C9: for every header byte `h`, `Type()` is `h >> 4` (bits 7-4), `Dup()` is bit 3,
`Qos()` returns `(h >> 1) & 3` (bits 2-1) and errors exactly when that value is 3, and
`Retain()` is bit 0. -/
theorem header_bit_layout (h : Nat) (hh : h < 256) :
    Header.Type h = h >>> 4
      ∧ Header.Dup h = h.testBit 3
      ∧ (Header.Qos h).1 = (h >>> 1) &&& 3
      ∧ (Header.Qos h).2
          = (if (h >>> 1) &&& 3 = 3 then some Error.ErrBadQosLevel else none)
      ∧ Header.Retain h = h.testBit 0 := by
  revert h
  decide

theorem header_bit_layout_witness :
    0x3B < 256
      ∧ Header.Type 0x3B = 0x3B >>> 4
      ∧ Header.Dup 0x3B = Nat.testBit 0x3B 3
      ∧ (Header.Qos 0x3B).1 = (0x3B >>> 1) &&& 3
      ∧ (Header.Qos 0x3B).2
          = (if (0x3B >>> 1) &&& 3 = 3 then some Error.ErrBadQosLevel else none)
      ∧ Header.Retain 0x3B = Nat.testBit 0x3B 0 :=
  ⟨by decide, header_bit_layout 0x3B (by decide)⟩

/-- C10 (does not hold on the code): the header pack/unpack round trip. On a zero
header, `SetType(Connect)`, `SetDup(false)`, `SetQos(0)`, `SetRetain(true)` give the byte
`0x18`: `Retain()` reports `false` and `Dup()` reports `true`, because `set1Bit` always
writes bit 3 whatever mask it is given. -/
theorem header_roundtrip_fails_on_retain :
    Header.SetRetain (Header.SetQos (Header.SetDup
        (Header.SetType 0 MsgTypeConnect).1 false) QosAtMostOnce).1 true = 0x18
      ∧ Header.Retain (Header.SetRetain (Header.SetQos (Header.SetDup
          (Header.SetType 0 MsgTypeConnect).1 false) QosAtMostOnce).1 true) = false
      ∧ Header.Dup (Header.SetRetain (Header.SetQos (Header.SetDup
          (Header.SetType 0 MsgTypeConnect).1 false) QosAtMostOnce).1 true) = true := by
  decide

/-- C11 (does not hold on the code): the header setters and the other fields.
`SetQos(1)` on the byte `0x04` (QoS 2) gives `0x06`, whose QoS bits are 3: the old bit 2
is not cleared. `SetQos(0)` on `0x01` gives `0x00`: the retain bit is lost.
`SetRetain(true)` on `0x00` gives `0x08`: the dup bit is set and the retain bit is not. -/
theorem header_setters_disturb_fields :
    (Header.SetQos 0x04 QosAtLeastOnce).1 = 0x06
      ∧ Header.Qos (Header.SetQos 0x04 QosAtLeastOnce).1 = (3, some Error.ErrBadQosLevel)
      ∧ Header.Retain 0x01 = true
      ∧ Header.Retain (Header.SetQos 0x01 QosAtMostOnce).1 = false
      ∧ Header.SetRetain 0x00 true = 0x08
      ∧ Header.Retain (Header.SetRetain 0x00 true) = false
      ∧ Header.Dup 0x00 = false
      ∧ Header.Dup (Header.SetRetain 0x00 true) = true := by
  decide

/-- C12 (does not hold on the code): unknown type codes. The type code 0 is none of the
14 kinds, yet `MsgType.Valid` accepts it, `Header.Type` returns it and `Header.Validate`
returns nil for the header byte `0x00`, although `msgRegistry` has no entry for it; only
the nibble 15 gives `ErrBadMsgType`. -/
theorem validate_accepts_type_zero :
    MsgType.Valid 0 = true
      ∧ Header.Type 0x00 = 0
      ∧ Header.Validate 0x00 0 = none
      ∧ msgRegistry 0 = none
      ∧ Header.Validate 0xF0 0 = some Error.ErrBadMsgType := by
  decide

/-- C13: for every header byte whose type nibble is one of the 14 known kinds and whose
QoS bits are both set, `Header.Validate` returns `ErrBadQosLevel` for every length; for
a header byte `g` whose QoS bits are 0, 1 or 2 it never returns `ErrBadQosLevel`. -/
theorem validate_rejects_qos3 (h g length : Nat) (hh : h < 256) (hg : g < 256)
    (hknown : MsgTypeConnect ≤ h >>> 4 ∧ h >>> 4 ≤ MsgTypeDisconnect)
    (hq3 : (h >>> 1) &&& 3 = 3) (hgq : (g >>> 1) &&& 3 ≠ 3) :
    Header.Validate h length = some Error.ErrBadQosLevel
      ∧ Header.Validate g length ≠ some Error.ErrBadQosLevel := by
  simp only [MsgTypeConnect, MsgTypeDisconnect] at hknown
  constructor
  · rw [Header.Validate_eq h length hh]
    have h1 : ¬ h >>> 4 = 15 := by omega
    simp [h1, hq3]
  · rw [Header.Validate_eq g length hg]
    split_ifs <;> simp

theorem validate_rejects_qos3_witness :
    Header.Validate 0x36 0 = some Error.ErrBadQosLevel
      ∧ Header.Validate 0x34 0 ≠ some Error.ErrBadQosLevel :=
  validate_rejects_qos3 0x36 0x34 0 (by decide) (by decide) (by decide) (by decide)
    (by decide)

/-- C14: for every header with a known type and a QoS in {0,1,2}, `Header.Validate`
returns `ErrTooLong` exactly when `length > 1,048,576` for Publish, or
`length > 10,240` for any other type, and nil otherwise. -/
theorem validate_length_caps (h length : Nat) (hh : h < 256)
    (hknown : MsgTypeConnect ≤ Header.Type h ∧ Header.Type h ≤ MsgTypeDisconnect)
    (hq : (Header.Qos h).2 = none) :
    Header.Validate h length
      = if (Header.Type h = MsgTypePublish ∧ length > 1048576)
            ∨ (Header.Type h ≠ MsgTypePublish ∧ length > 10240)
        then some Error.ErrTooLong else none := by
  rw [Header.Type_eq h hh] at hknown ⊢
  rw [Header.Qos_eq h hh] at hq
  simp only [MsgTypeConnect, MsgTypeDisconnect] at hknown
  rw [Header.Validate_eq h length hh]
  have hk : (1 : Nat) ≤ h >>> 4 ∧ h >>> 4 ≤ (14 : Nat) := hknown
  have h1 : ¬ h >>> 4 = 15 := by omega
  have h2 : ¬ (h >>> 1) &&& 3 = 3 := by
    intro hc
    simp [hc] at hq
  simp only [h1, h2, if_false, MsgTypePublish]
  by_cases h3 : h >>> 4 = 3
  · simp [h3]
  · simp [h3]

theorem validate_length_caps_witness :
    Header.Validate 0x30 1048576 = none
      ∧ Header.Validate 0x30 1048577 = some Error.ErrTooLong
      ∧ Header.Validate 0x40 10240 = none
      ∧ Header.Validate 0x40 10241 = some Error.ErrTooLong :=
  ⟨by simpa using validate_length_caps 0x30 1048576 (by decide) (by decide) (by decide),
   by simpa using validate_length_caps 0x30 1048577 (by decide) (by decide) (by decide),
   by simpa using validate_length_caps 0x40 10240 (by decide) (by decide) (by decide),
   by simpa using validate_length_caps 0x40 10241 (by decide) (by decide) (by decide)⟩

/-- C16: for every stream whose header byte and decoded remaining length fail
`Header.Validate`, `Read` returns nil together with exactly the error `Validate`
returned, and the stream is left right after the varint: only the header byte and the
`k ≤ 4` varint bytes are consumed. -/
theorem Read_validation_precedes_dispatch (hb : Nat) (s : List Nat) (l : Nat)
    (r2 : Reader) (e : Error)
    (hlen : readLen4 ⟨s, none⟩ = ((l, none), r2))
    (hval : Header.Validate hb l = some e) :
    Read (hb :: s) = Run.ret ((none, some e), r2.data)
      ∧ ∃ k, k ≤ 4 ∧ r2.data = s.drop k := by
  constructor
  · simp [Read, Header.readFrom, ReadFull_one_cons, readMsgLen, hlen, hval]
  · obtain ⟨k, hk, hk2⟩ := readLen4Loop_consumes 4 0 0 ⟨s, none⟩
    refine ⟨k, hk, ?_⟩
    have h3 : r2 = Reader.advance ⟨s, none⟩ k := by
      rw [← hk2]
      exact (congrArg Prod.snd hlen).symm
    rw [h3]
    rfl

theorem Read_validation_precedes_dispatch_witness :
    Read (0x30 :: [0x81, 0x80, 0x40, 0xAA, 0xBB])
        = Run.ret ((none, some Error.ErrTooLong), [0xAA, 0xBB])
      ∧ ∃ k, k ≤ 4 ∧ [0xAA, 0xBB] = List.drop k [0x81, 0x80, 0x40, 0xAA, 0xBB] :=
  Read_validation_precedes_dispatch 0x30 [0x81, 0x80, 0x40, 0xAA, 0xBB] 1048577
    ⟨[0xAA, 0xBB], none⟩ Error.ErrTooLong (by decide) (by decide)

/-- C17 (does not hold on the code): the message round trip. For the PubAck with header
`0x40` and message id 5, `Write` produces `[0x40, 0x00, 0x05]`: the remaining length 2
is written as no byte at all. `Read` on these bytes takes `0x00` as the remaining
length and fails with `io.EOF`. -/
theorem message_roundtrip_fails_for_PubAck :
    Write [] (Msg.MsgPubAck { H := 0x40, MsgId := 5 }) = (none, [0x40, 0x00, 0x05])
      ∧ Read (Write [] (Msg.MsgPubAck { H := 0x40, MsgId := 5 })).2
          = Run.ret ((none, some Error.EOF), [0x05]) := by
  decide

set_option maxRecDepth 100000 in
set_option synthInstance.maxSize 1000 in
/-- C18: for every header byte `h` whose type is PingReq, PingResp or Disconnect and
whose QoS bits are not 3, `Read` on the two bytes `[h, 0x00]` yields the empty message of
that variant with header `h`, and `Write` of that message produces `[h, 0x00]` again. -/
theorem headerOnly_roundtrip (h : Nat) (hh : h < 256)
    (ht : Header.Type h = MsgTypePingReq ∨ Header.Type h = MsgTypePingResp
      ∨ Header.Type h = MsgTypeDisconnect)
    (hq : (Header.Qos h).2 = none) :
    Read [h, 0x00]
        = Run.ret ((some (
            if Header.Type h = MsgTypePingReq then Msg.MsgPingReq { H := h }
            else if Header.Type h = MsgTypePingResp then Msg.MsgPingResp { H := h }
            else Msg.MsgDisconnect { H := h }), none), [])
      ∧ Write [] (
            if Header.Type h = MsgTypePingReq then Msg.MsgPingReq { H := h }
            else if Header.Type h = MsgTypePingResp then Msg.MsgPingResp { H := h }
            else Msg.MsgDisconnect { H := h }) = (none, [h, 0x00]) := by
  revert h
  decide

theorem headerOnly_roundtrip_witness :
    Read [0xC0, 0x00] = Run.ret ((some (Msg.MsgPingReq { H := 0xC0 }), none), [])
      ∧ Write [] (Msg.MsgPingReq { H := 0xC0 }) = (none, [0xC0, 0x00]) :=
  headerOnly_roundtrip 0xC0 (by decide) (by decide) (by decide)

/-- C19: for PingReq, PingResp and Disconnect, `readFrom` returns `ErrWrongLength` for
every declared remaining length other than 0 and nil for length 0, and in either case
leaves the stream as it was: no byte is read. -/
theorem headerOnly_length_check (m : msgHeaderOnly) (r : List Nat) (h length : Nat) :
    msgHeaderOnly.readFrom m r h length
        = (({ H := h }, if length = 0 then none else some Error.ErrWrongLength), r)
      ∧ Msg.readFrom (Msg.MsgPingReq m) r h length
        = Run.ret ((Msg.MsgPingReq { H := h },
            if length = 0 then none else some Error.ErrWrongLength), r)
      ∧ Msg.readFrom (Msg.MsgPingResp m) r h length
        = Run.ret ((Msg.MsgPingResp { H := h },
            if length = 0 then none else some Error.ErrWrongLength), r)
      ∧ Msg.readFrom (Msg.MsgDisconnect m) r h length
        = Run.ret ((Msg.MsgDisconnect { H := h },
            if length = 0 then none else some Error.ErrWrongLength), r) := by
  have key : msgHeaderOnly.readFrom m r h length
      = (({ H := h }, if length = 0 then none else some Error.ErrWrongLength), r) := by
    by_cases hl : length = 0 <;> simp [msgHeaderOnly.readFrom, hl]
  exact ⟨key, by simp [Msg.readFrom, Run.wrap, key], by simp [Msg.readFrom, Run.wrap, key],
    by simp [Msg.readFrom, Run.wrap, key]⟩

/-- C20: for a ConnAck with declared length 2 and payload `[rb, c]`, decoding succeeds
with return code `c` when `c ≤ 4` (so `[0x00, 0x00]` yields Accepted) and fails with
`ErrBadRC` when `c > 4`; the same holds for `Read` on the header byte `0x20`, the length
byte `0x02` and the payload. -/
theorem ConnAck_decode (m : MsgConnAct) (h rb c : Nat) (rest : List Nat) :
    MsgConnAct.readFrom m (rb :: c :: rest) h 2
        = (({ H := h, RC := c }, if c ≤ 4 then none else some Error.ErrBadRC), rest)
      ∧ Read (0x20 :: 0x02 :: rb :: c :: rest)
        = (if c ≤ 4 then Run.ret ((some (Msg.MsgConnAct { H := 0x20, RC := c }), none), rest)
           else Run.ret ((none, some Error.ErrBadRC), rest))
      ∧ MsgConnAct.readFrom m [0x00, 0x00] h 2
        = (({ H := h, RC := RCAccepted }, none), []) := by
  have key : ∀ (m : MsgConnAct) (h rb c : Nat) (rest : List Nat),
      MsgConnAct.readFrom m (rb :: c :: rest) h 2
        = (({ H := h, RC := c }, if c ≤ 4 then none else some Error.ErrBadRC), rest) := by
    intro m h rb c rest
    by_cases hc : c ≤ 4 <;>
      simp [MsgConnAct.readFrom, LimitedReader, readUint8, ReadFull, Reader.avail,
        Reader.advance, Reader.limitN, ReturnCode.Valid, RCBadUserPassword, hc]
  refine ⟨key m h rb c rest, ?_, ?_⟩
  · have h4 := readLen4_of_wellFormed [0x02] (rb :: c :: rest) (by decide) (by decide)
      (by decide) (by decide)
    have h5 : varintSum [0x02] 0 = 2 := by decide
    rw [h5] at h4
    rw [Read_of_valid 0x20 (0x02 :: rb :: c :: rest) 2 ⟨rb :: c :: rest, none⟩
      (Msg.MsgConnAct {}) h4 (by decide) (by decide)]
    simp only [Msg.readFrom, key, Run.wrap]
    by_cases hc : c ≤ 4 <;> simp [hc, Read.finish]
  · simpa [RCAccepted] using key m h 0 0 []

/-- C15: for every input stream on which `Read` succeeds, the stream is one header byte
`hb`, the `k` bytes `enc` of the remaining-length varint (`1 ≤ k ≤ 4`), `L` payload
bytes where `L` is the decoded remaining length, and then the bytes `s1` that `Read`
leaves unread: the next message starts at the first byte after the payload. -/
theorem Read_exact_framing (r s1 : List Nat) (m : Msg)
    (hok : Read r = Run.ret ((some m, none), s1)) :
    ∃ hb enc payload, r = hb :: (enc ++ (payload ++ s1))
      ∧ 1 ≤ enc.length ∧ enc.length ≤ 4
      ∧ readMsgLen ⟨enc ++ (payload ++ s1), none⟩
          = ((payload.length, none), ⟨payload ++ s1, none⟩) := by
  obtain ⟨hb, s, l, j, rfl, hj1, hj4, hjs, hlen, hl, rfl⟩ := Read_success r s1 m hok
  have hs : s = s.take j ++ ((s.drop j).take l ++ (s.drop j).drop l) := by
    rw [List.take_append_drop, List.take_append_drop]
  have hel : (s.take j).length = j := by simp [List.length_take, hjs]
  have hpl : ((s.drop j).take l).length = l := by
    rw [List.length_take]
    omega
  refine ⟨hb, s.take j, (s.drop j).take l, by rw [← hs], by omega, by omega, ?_⟩
  rw [← hs, hpl, List.take_append_drop]
  simp only [readMsgLen, hlen]

theorem Read_exact_framing_witness :
    ∃ hb enc payload, [0x32, 0x06, 2, 0x61, 0x62, 0, 7, 0x99, 0xC0, 0x00]
        = hb :: (enc ++ (payload ++ [0xC0, 0x00]))
      ∧ 1 ≤ enc.length ∧ enc.length ≤ 4
      ∧ readMsgLen ⟨enc ++ (payload ++ [0xC0, 0x00]), none⟩
          = ((payload.length, none), ⟨payload ++ [0xC0, 0x00], none⟩) :=
  Read_exact_framing [0x32, 0x06, 2, 0x61, 0x62, 0, 7, 0x99, 0xC0, 0x00] [0xC0, 0x00]
    (Msg.MsgPublish { H := 0x32, Topic := [0x61, 0x62], MsgId := 7, Content := [0x99] })
    (by decide)

/-- C21 (does not hold on the code): `WriteConnAck`. For the return code 3 it writes
`[0x20, 0x00, 0x03]`: the remaining length 2 is written as no byte at all, so the bytes
are not `0x20 0x02 0x00 0x03`. `Read` on them takes `0x00` as the remaining length and
fails with `io.EOF`. The same happens for the return code 0. -/
theorem WriteConnAck_not_decodable :
    WriteConnAck [] RCServerUnavailable = (none, [0x20, 0x00, 0x03])
      ∧ Read (WriteConnAck [] RCServerUnavailable).2
          = Run.ret ((none, some Error.EOF), [0x03])
      ∧ WriteConnAck [] RCAccepted = (none, [0x20, 0x00, 0x00])
      ∧ Read (WriteConnAck [] RCAccepted).2 = Run.ret ((none, some Error.EOF), [0x00]) := by
  decide

/-- C22: for PubAck, PubRec, PubRel, PubComp and UnsubAck (which all decode with
`msgSimpleAck.readFrom`) with declared length 2 and payload `[hi, lo]`, decoding succeeds
with message id `hi*256 + lo`, so `[0x00, 0x05]` yields id 5; and `writeUint16` followed
by `readUint16` returns the original 16-bit value. -/
theorem simpleAck_decode (m : msgSimpleAck) (h hi lo val : Nat) (rest : List Nat)
    (hhi : hi < 256) (hlo : lo < 256) (hval : val < 2 ^ 16) :
    msgSimpleAck.readFrom m (hi :: lo :: rest) h 2
        = (({ H := h, MsgId := hi * 256 + lo }, none), rest)
      ∧ (∀ f ∈ [Msg.MsgPubAck, Msg.MsgPubRec, Msg.MsgPubRel, Msg.MsgPubComp,
            Msg.MsgUnsubAck],
          Msg.readFrom (f m) (hi :: lo :: rest) h 2
            = Run.ret ((f { H := h, MsgId := hi * 256 + lo }, none), rest))
      ∧ msgSimpleAck.readFrom m [0x00, 0x05] h 2 = (({ H := h, MsgId := 5 }, none), [])
      ∧ readUint16 ⟨(writeUint16 [] val).2 ++ rest, none⟩ = ((val, none), ⟨rest, none⟩) := by
  have key : ∀ (hi lo : Nat) (rest : List Nat), hi < 256 → lo < 256 →
      msgSimpleAck.readFrom m (hi :: lo :: rest) h 2
        = (({ H := h, MsgId := hi * 256 + lo }, none), rest) := by
    intro hi lo rest hhi hlo
    have h1 := readUint16_lim hi lo rest 2 (le_refl _)
    rw [uint16_bigEndian hi lo hhi hlo] at h1
    simp [msgSimpleAck.readFrom, LimitedReader, h1, Reader.limitN]
  refine ⟨key hi lo rest hhi hlo, ?_, ?_, ?_⟩
  · intro f hf
    simp only [List.mem_cons, List.mem_singleton, List.not_mem_nil, or_false] at hf
    rcases hf with rfl | rfl | rfl | rfl | rfl <;>
      simp only [Msg.readFrom, key hi lo rest hhi hlo, Run.wrap]
  · simpa using key 0 5 [] (by norm_num) (by norm_num)
  · have h1 := ReadFull_append [(val >>> 8) % 256, (val &&& 0x00ff) % 256] rest
    simp only [List.length_cons, List.length_nil] at h1
    have h2 : ((((val >>> 8) % 256) <<< 8) % 2 ^ 16) ||| ((val &&& 0x00ff) % 256) = val := by
      rw [uint16_bigEndian _ _ (Nat.mod_lt _ (by norm_num)) (Nat.mod_lt _ (by norm_num)),
        Nat.shiftRight_eq_div_pow]
      have h3 : val &&& 0x00ff = val % 256 := Nat.and_pow_two_sub_one_eq_mod val 8
      rw [h3]
      omega
    simp only [writeUint16, Writer.Write, List.nil_append, readUint16]
    rw [show (0 + 1 + 1) = 2 from rfl] at h1
    rw [h1]
    simp only [List.getD_cons_zero, List.getD_cons_succ, h2]

theorem simpleAck_decode_witness :
    msgSimpleAck.readFrom {} (0x12 :: 0x34 :: [0x99]) 0x40 2
        = (({ H := 0x40, MsgId := 0x12 * 256 + 0x34 }, none), [0x99])
      ∧ (∀ f ∈ [Msg.MsgPubAck, Msg.MsgPubRec, Msg.MsgPubRel, Msg.MsgPubComp,
            Msg.MsgUnsubAck],
          Msg.readFrom (f {}) (0x12 :: 0x34 :: [0x99]) 0x40 2
            = Run.ret ((f { H := 0x40, MsgId := 0x12 * 256 + 0x34 }, none), [0x99]))
      ∧ msgSimpleAck.readFrom {} [0x00, 0x05] 0x40 2 = (({ H := 0x40, MsgId := 5 }, none), [])
      ∧ readUint16 ⟨(writeUint16 [] 0xABCD).2 ++ [0x99], none⟩
          = ((0xABCD, none), ⟨[0x99], none⟩) :=
  simpleAck_decode {} 0x40 0x12 0x34 0xABCD [0x99] (by decide) (by decide) (by decide)

/-- C23, as stated, fails: for a PubAck with declared remaining length 1 and the
one-byte payload `[0x00]`, decoding fails with `io.ErrUnexpectedEOF`, not with
`ErrWrongLength`. -/
theorem simpleAck_one_byte_payload_error :
    msgSimpleAck.readFrom {} [0x00] 0x40 1
        = (({ H := 0x40, MsgId := 0 }, some Error.ErrUnexpectedEOF), [])
      ∧ (msgSimpleAck.readFrom {} [0x00] 0x40 1).1.2 ≠ some Error.ErrWrongLength
      ∧ Read [0x40, 0x01, 0x00] = Run.ret ((none, some Error.ErrUnexpectedEOF), []) := by
  decide

/-- C23, amended: for PubAck, PubRec, PubRel, PubComp and UnsubAck (which all decode
with `msgSimpleAck.readFrom`), decoding with a declared remaining length `L` other than
2, the stream holding `L` payload bytes, fails: with `ErrWrongLength` when `L ≥ 3`, with
`io.ErrUnexpectedEOF` when `L = 1` and with `io.EOF` when `L = 0`. -/
theorem simpleAck_length_enforcement (m : msgSimpleAck) (h L : Nat)
    (payload rest : List Nat) (hlen : payload.length = L) (hne : L ≠ 2) :
    (msgSimpleAck.readFrom m (payload ++ rest) h L).1.2
        = some (if L = 0 then Error.EOF
                else if L = 1 then Error.ErrUnexpectedEOF else Error.ErrWrongLength)
      ∧ (∀ f ∈ [Msg.MsgPubAck, Msg.MsgPubRec, Msg.MsgPubRel, Msg.MsgPubComp,
            Msg.MsgUnsubAck],
          Msg.readFrom (f m) (payload ++ rest) h L
            = Run.wrap f (Run.ret (msgSimpleAck.readFrom m (payload ++ rest) h L))) := by
  constructor
  · subst hlen
    match payload, hne with
    | [], _ => simp [msgSimpleAck.readFrom, LimitedReader, readUint16, ReadFull, Reader.avail]
    | [a], _ =>
      simp [msgSimpleAck.readFrom, LimitedReader, readUint16, ReadFull, Reader.avail]
    | [a, b], hne => exact absurd rfl hne
    | a :: b :: c :: t, _ =>
      have h1 := readUint16_lim a b (c :: (t ++ rest)) (t.length + 1 + 1 + 1) (by omega)
      simp only [List.length_cons, List.cons_append, msgSimpleAck.readFrom, LimitedReader, h1,
        Reader.limitN]
      simp
  · intro f hf
    simp only [List.mem_cons, List.mem_singleton, List.not_mem_nil, or_false] at hf
    rcases hf with rfl | rfl | rfl | rfl | rfl <;> rfl

theorem simpleAck_length_enforcement_witness :
    (msgSimpleAck.readFrom {} ([0x00, 0x05, 0x06] ++ [0x99]) 0x40 3).1.2
        = some (if 3 = 0 then Error.EOF
                else if 3 = 1 then Error.ErrUnexpectedEOF else Error.ErrWrongLength)
      ∧ (∀ f ∈ [Msg.MsgPubAck, Msg.MsgPubRec, Msg.MsgPubRel, Msg.MsgPubComp,
            Msg.MsgUnsubAck],
          Msg.readFrom (f {}) ([0x00, 0x05, 0x06] ++ [0x99]) 0x40 3
            = Run.wrap f (Run.ret (msgSimpleAck.readFrom {} ([0x00, 0x05, 0x06] ++ [0x99])
                0x40 3))) :=
  simpleAck_length_enforcement {} 0x40 3 [0x00, 0x05, 0x06] [0x99] (by decide) (by decide)

/-- C24: for a Publish header and a payload of the declared length that starts with a
well-formed string field, decoding yields Topic = that string; with a header `h1` of
QoS `q ≥ 1` the next two bytes are the big-endian message id; with a header `h0` of
QoS 0 no id bytes are consumed and MsgId is 0; Content is exactly all remaining bytes of
the bound, in order, and the bytes after the bound stay unread. -/
theorem Publish_decode (h0 h1 q hi lo : Nat) (enc topic content rest : List Nat)
    (hf : IsStrField enc topic)
    (hq0 : Header.Qos h0 = (QosAtMostOnce, none))
    (hq1 : Header.Qos h1 = (q, none)) (hq : QosAtLeastOnce ≤ q)
    (hhi : hi < 256) (hlo : lo < 256) :
    MsgPublish.readFrom {} (enc ++ (topic ++ (content ++ rest))) h0
        (enc.length + topic.length + content.length)
      = Run.ret (({ H := h0, Topic := topic, MsgId := 0, Content := content }, none), rest)
    ∧ MsgPublish.readFrom {} (enc ++ (topic ++ (hi :: lo :: (content ++ rest)))) h1
        (enc.length + topic.length + 2 + content.length)
      = Run.ret (({ H := h1, Topic := topic, MsgId := hi * 256 + lo, Content := content },
          none), rest) := by
  constructor
  · have a1 := readStr_lim enc topic (content ++ rest)
      (enc.length + topic.length + content.length) hf (by omega)
    have e1 : enc.length + topic.length + content.length - (enc.length + topic.length)
        = content.length := by omega
    rw [e1] at a1
    have a2 := MsgPublish_readContent_lim content rest [] content.length rfl
    have hno : ¬ QosAtMostOnce ≥ QosAtLeastOnce := by decide
    simp only [MsgPublish.readFrom, LimitedReader, a1, hq0, hno, if_false, Reader.limitN,
      Option.getD_some, a2, List.nil_append]
  · have a1 := readStr_lim enc topic (hi :: lo :: (content ++ rest))
      (enc.length + topic.length + 2 + content.length) hf (by omega)
    have a2 := readUint16_lim hi lo (content ++ rest)
      (enc.length + topic.length + 2 + content.length - (enc.length + topic.length))
      (by omega)
    have e1 : enc.length + topic.length + 2 + content.length - (enc.length + topic.length) - 2
        = content.length := by omega
    rw [e1, uint16_bigEndian hi lo hhi hlo] at a2
    have a3 := MsgPublish_readContent_lim content rest [] content.length rfl
    have hyes : q ≥ QosAtLeastOnce := hq
    simp only [MsgPublish.readFrom, LimitedReader, a1, hq1, hyes, if_true, a2, Reader.limitN,
      Option.getD_some, a3, List.nil_append]

theorem Publish_decode_witness :
    MsgPublish.readFrom {} ([0x02] ++ ([0x61, 0x62] ++ ([0x99, 0x98] ++ [0xC0]))) 0x30
        ([0x02].length + [0x61, 0x62].length + [0x99, 0x98].length)
      = Run.ret (({ H := 0x30, Topic := [0x61, 0x62], MsgId := 0, Content := [0x99, 0x98] },
          none), [0xC0])
    ∧ MsgPublish.readFrom {} ([0x02] ++ ([0x61, 0x62] ++ (0x01 :: 0x07 :: ([0x99, 0x98]
          ++ [0xC0])))) 0x34
        ([0x02].length + [0x61, 0x62].length + 2 + [0x99, 0x98].length)
      = Run.ret
          (({ H := 0x34, Topic := [0x61, 0x62], MsgId := 0x01 * 256 + 0x07, Content := [0x99, 0x98] },
            none), [0xC0]) :=
  Publish_decode 0x30 0x34 2 0x01 0x07 [0x02] [0x61, 0x62] [0x99, 0x98] [0xC0]
    (by decide) (by decide) (by decide) (by decide) (by decide) (by decide)

/-- C25: for every Publish message with a QoS in {0,1,2}, `MsgPublish.writeTo` (header,
length, topic and id, then the content written separately) gives the same result for
the same writer as `writeMsgData` on the same header and the single payload
topic field ++ optional id ++ Content; that payload is the topic field, then the two
id bytes if the QoS is at least 1, then the content. -/
theorem Publish_streaming_eq_buffered (m : MsgPublish) (w : Writer)
    (hq : (Header.Qos m.H).2 = none) :
    MsgPublish.writeTo m w = MsgPublish.writeToBuffered m w
      ∧ (∀ tf, str.writeTo m.Topic [] = (none, tf) →
          MsgPublish.payload m
            = (none, tf ++ (if (Header.Qos m.H).1 ≥ QosAtLeastOnce
                then [(m.MsgId >>> 8) % 256, (m.MsgId &&& 0x00ff) % 256] else [])
                ++ m.Content)
          ∧ MsgPublish.writeTo m w
            = writeMsgData w m.H (tf ++ (if (Header.Qos m.H).1 ≥ QosAtLeastOnce
                then [(m.MsgId >>> 8) % 256, (m.MsgId &&& 0x00ff) % 256] else [])
                ++ m.Content)) := by
  rcases hqq : Header.Qos m.H with ⟨q, eq⟩
  rw [hqq] at hq
  simp only at hq
  subst hq
  have main : MsgPublish.writeTo m w = MsgPublish.writeToBuffered m w := by
    simp only [MsgPublish.writeTo, MsgPublish.writeToBuffered, MsgPublish.payload, hqq]
    rcases hs : str.writeTo m.Topic [] with ⟨e, b⟩
    cases e with
    | some err => rfl
    | none =>
      by_cases hge : q ≥ QosAtLeastOnce
      · simp only [hge, if_true, writeUint16, writeMsgData, writeUint8, Writer.Write,
          List.length_append, List.append_assoc, List.length_cons, List.length_nil,
          Nat.add_assoc]
      · simp only [hge, if_false, writeMsgData, writeUint8, Writer.Write,
          List.length_append, List.append_assoc]
  refine ⟨main, ?_⟩
  intro tf htf
  have hp : MsgPublish.payload m
      = (none, tf ++ (if q ≥ QosAtLeastOnce
          then [(m.MsgId >>> 8) % 256, (m.MsgId &&& 0x00ff) % 256] else []) ++ m.Content) := by
    simp only [MsgPublish.payload, htf, hqq]
    by_cases hge : q ≥ QosAtLeastOnce <;> simp [hge]
  refine ⟨hp, ?_⟩
  rw [main]
  simp only [MsgPublish.writeToBuffered, hp]

theorem Publish_streaming_eq_buffered_witness :
    MsgPublish.writeTo { H := 0x32, Topic := [], MsgId := 7, Content := [1, 2, 3] } []
        = MsgPublish.writeToBuffered
            { H := 0x32, Topic := [], MsgId := 7, Content := [1, 2, 3] } []
      ∧ MsgPublish.payload { H := 0x32, Topic := [], MsgId := 7, Content := [1, 2, 3] }
        = (none, [0x00, 0x00, 0x07, 1, 2, 3]) :=
  ⟨(Publish_streaming_eq_buffered
      { H := 0x32, Topic := [], MsgId := 7, Content := [1, 2, 3] } [] (by decide)).1,
    by decide⟩

/-- C26: for every payload of declared length `L` made of a 2-byte big-endian message
id followed by `n ≥ 0` complete pairs (string field, one QoS byte) that fill the bound
exactly, decoding a Subscribe succeeds with that message id and Topics equal to the
`n` (topic, qos) pairs in wire order (empty for `n = 0`), and leaves the bytes after the
bound unread. -/
theorem Subscribe_decode (h hi lo : Nat) (ps : List WirePair) (rest : List Nat)
    (hhi : hi < 256) (hlo : lo < 256) (hwf : ∀ p ∈ ps, IsStrField p.enc p.topic) :
    MsgSubscribe.readFrom {} (hi :: lo :: (wirePairs ps ++ rest)) h
        (2 + (wirePairs ps).length)
      = Run.ret (({ H := h, MsgId := hi * 256 + lo,
                    Topics := ps.map (fun p => (p.topic, p.qos)) }, none), rest) := by
  have a1 := readUint16_lim hi lo (wirePairs ps ++ rest) (2 + (wirePairs ps).length)
    (by omega)
  have e1 : 2 + (wirePairs ps).length - 2 = (wirePairs ps).length := by omega
  rw [e1, uint16_bigEndian hi lo hhi hlo] at a1
  have a2 := MsgSubscribe_readTopics_pairs ps (wirePairs ps).length
    { H := h, MsgId := hi * 256 + lo, Topics := [] } rest 0 (wirePairs ps).length hwf
    (wirePairs_length_ge ps hwf) rfl
  have a3 := MsgSubscribe_readTopics_done ((wirePairs ps).length - ps.length) ⟨rest, some 0⟩
    { H := h, MsgId := hi * 256 + lo, Topics := ps.map (fun p => (p.topic, p.qos)) } rfl
  simp only [List.nil_append] at a2
  rw [a3] at a2
  simp only [MsgSubscribe.readFrom, LimitedReader, a1, Reader.limitN, Option.getD_some, a2]
  simp

theorem Subscribe_decode_witness :
    MsgSubscribe.readFrom {}
        (0x00 :: 0x01 :: (wirePairs [⟨[0x01], [0x61], 1⟩, ⟨[0x02], [0x62, 0x63], 2⟩] ++ [0xC0]))
        0x82 (2 + (wirePairs [⟨[0x01], [0x61], 1⟩, ⟨[0x02], [0x62, 0x63], 2⟩]).length)
      = Run.ret (({ H := 0x82, MsgId := 0x00 * 256 + 0x01,
                    Topics := List.map (fun (p : WirePair) => (p.topic, p.qos))
                      [⟨[0x01], [0x61], 1⟩, ⟨[0x02], [0x62, 0x63], 2⟩] }, none), [0xC0]) :=
  Subscribe_decode 0x82 0x00 0x01 [⟨[0x01], [0x61], 1⟩, ⟨[0x02], [0x62, 0x63], 2⟩] [0xC0]
    (by decide) (by decide) (by decide)

/-- On a Subscribe payload that holds a message id, `n ≥ 0` complete topic/QoS pairs and
one more complete topic string whose QoS byte is missing from the bound,
`MsgSubscribe.readFrom` returns `io.EOF`: the error of the read of the QoS byte from the
exhausted bound. The bytes after the bound stay unread. -/
theorem MsgSubscribe_readFrom_partial_pair (h hi lo : Nat) (ps : List WirePair)
    (enc topic rest : List Nat)
    (hhi : hi < 256) (hlo : lo < 256) (hwf : ∀ p ∈ ps, IsStrField p.enc p.topic)
    (hlast : IsStrField enc topic) :
    MsgSubscribe.readFrom {} (hi :: lo :: (wirePairs ps ++ (enc ++ (topic ++ rest)))) h
        (2 + (wirePairs ps).length + (enc.length + topic.length))
      = Run.ret (({ H := h, MsgId := hi * 256 + lo,
                    Topics := ps.map (fun p => (p.topic, p.qos)) }, some Error.EOF), rest) := by
  have a1 := readUint16_lim hi lo (wirePairs ps ++ (enc ++ (topic ++ rest)))
    (2 + (wirePairs ps).length + (enc.length + topic.length)) (by omega)
  have e1 : 2 + (wirePairs ps).length + (enc.length + topic.length) - 2
      = (wirePairs ps).length + (enc.length + topic.length) := by omega
  rw [e1, uint16_bigEndian hi lo hhi hlo] at a1
  have hge := wirePairs_length_ge ps hwf
  have henc := hlast.1
  have a2 := MsgSubscribe_readTopics_pairs ps
    ((wirePairs ps).length + (enc.length + topic.length))
    { H := h, MsgId := hi * 256 + lo, Topics := [] } (enc ++ (topic ++ rest))
    (enc.length + topic.length) ((wirePairs ps).length + (enc.length + topic.length)) hwf
    (by omega) rfl
  have a3 := MsgSubscribe_readTopics_short
    ((wirePairs ps).length + (enc.length + topic.length) - ps.length)
    { H := h, MsgId := hi * 256 + lo, Topics := ps.map (fun p => (p.topic, p.qos)) }
    enc topic rest (enc.length + topic.length) hlast (by omega) rfl
  simp only [List.nil_append] at a2
  rw [a3] at a2
  simp only [MsgSubscribe.readFrom, LimitedReader, a1, Reader.limitN, Option.getD_some, a2]

/-- C27 (does not hold on the code): the Subscribe partial pair. A Subscribe with message
id 1, the pair ("a", 1) and the topic "b" whose QoS byte is missing from the bound
(remaining length 7) fails with `io.EOF`, not with `ErrWrongLength`, and so does every
payload of that shape. The check `lr.N != 0` after the loop, the one that returns
`ErrWrongLength`, is never taken: the loop `for lr.N > 0` ends without error only at
`lr.N = 0`, and `MsgSubscribe.readFrom` returns `ErrWrongLength` on no input. -/
theorem Subscribe_partial_pair_error :
    Read [0x80, 0x07, 0x00, 0x01, 0x01, 0x61, 0x01, 0x01, 0x62, 0x09, 0x09]
        = Run.ret ((none, some Error.EOF), [0x09, 0x09])
      ∧ MsgSubscribe.readFrom {} [0x00, 0x01, 0x01, 0x61, 0x01, 0x01, 0x62, 0x09, 0x09] 0x80 7
        = Run.ret (({ H := 0x80, MsgId := 1, Topics := [([0x61], 1)] }, some Error.EOF),
            [0x09, 0x09])
      ∧ (∀ (h hi lo : Nat) (ps : List WirePair) (enc topic rest : List Nat),
          hi < 256 → lo < 256 → (∀ p ∈ ps, IsStrField p.enc p.topic) → IsStrField enc topic →
          MsgSubscribe.readFrom {} (hi :: lo :: (wirePairs ps ++ (enc ++ (topic ++ rest)))) h
              (2 + (wirePairs ps).length + (enc.length + topic.length))
            = Run.ret (({ H := h, MsgId := hi * 256 + lo,
                          Topics := ps.map (fun p => (p.topic, p.qos)) }, some Error.EOF),
                rest))
      ∧ (∀ (fuel : Nat) (lr lr1 : Reader) (m m1 : MsgSubscribe),
          MsgSubscribe.readTopics fuel lr m = Run.ret ((m1, none), lr1) → lr1.limitN = 0)
      ∧ (∀ (m m1 : MsgSubscribe) (d s : List Nat) (h L : Nat),
          MsgSubscribe.readFrom m d h L
            ≠ Run.ret ((m1, some Error.ErrWrongLength), s)) := by
  refine ⟨by decide, by decide, ?_, ?_, ?_⟩
  · intro h hi lo ps enc topic rest hhi hlo hwf hlast
    exact MsgSubscribe_readFrom_partial_pair h hi lo ps enc topic rest hhi hlo hwf hlast
  · intro fuel lr lr1 m m1 hok
    exact (MsgSubscribe_readTopics_end fuel lr m m1 none lr1 hok).2 rfl
  · intro m m1 d s h L
    exact MsgSubscribe_readFrom_not_wrongLength m m1 d s h L

/-- C28: for every Connect payload the decoder reads protocol name, version, flags,
2-byte big-endian keep-alive and then all five string fields (client id, will topic,
will message, user name, password) in that order, whatever the flags byte is: two
payloads that differ only in the flags byte (`f1`, `f2`) decode to messages that differ
only in the stored flags; and decoding fails with `ErrWrongLength` exactly when bytes
of the bound (`extra`) remain after the password field. -/
theorem Connect_decode (m : MsgConnect) (h ver f1 f2 kh kl L : Nat)
    (pn cid wt wm un pw : List Nat × List Nat) (extra rest : List Nat)
    (hkh : kh < 256) (hkl : kl < 256)
    (hpn : IsStrField pn.1 pn.2) (hcid : IsStrField cid.1 cid.2)
    (hwt : IsStrField wt.1 wt.2) (hwm : IsStrField wm.1 wm.2)
    (hun : IsStrField un.1 un.2) (hpw : IsStrField pw.1 pw.2)
    (hL : L = (connectWire pn ver f1 kh kl cid wt wm un pw extra).length) :
    MsgConnect.readFrom m (connectWire pn ver f1 kh kl cid wt wm un pw (extra ++ rest)) h L
        = (({ H := h, ProtName := pn.2, ProtVer := ver, flags := f1,
              KeepAlive := kh * 256 + kl, ClientId := cid.2, WillTopic := wt.2,
              WillMsg := wm.2, UserName := un.2, Password := pw.2 },
            if extra = [] then none else some Error.ErrWrongLength), extra ++ rest)
      ∧ MsgConnect.readFrom m (connectWire pn ver f2 kh kl cid wt wm un pw (extra ++ rest)) h L
        = (({ H := h, ProtName := pn.2, ProtVer := ver, flags := f2,
              KeepAlive := kh * 256 + kl, ClientId := cid.2, WillTopic := wt.2,
              WillMsg := wm.2, UserName := un.2, Password := pw.2 },
            if extra = [] then none else some Error.ErrWrongLength), extra ++ rest) := by
  simp only [connectWire, List.length_append, List.length_cons] at hL
  have key : ∀ fl : Nat,
      MsgConnect.readFrom m (connectWire pn ver fl kh kl cid wt wm un pw (extra ++ rest)) h L
        = (({ H := h, ProtName := pn.2, ProtVer := ver, flags := fl,
              KeepAlive := kh * 256 + kl, ClientId := cid.2, WillTopic := wt.2,
              WillMsg := wm.2, UserName := un.2, Password := pw.2 },
            if extra = [] then none else some Error.ErrWrongLength), extra ++ rest) := by
    intro fl
    have a1 := readStr_lim pn.1 pn.2 (ver :: fl :: kh :: kl :: (cid.1 ++ (cid.2 ++ (wt.1 ++ (wt.2 ++ (wm.1 ++ (wm.2 ++ (un.1 ++ (un.2 ++ (pw.1 ++ (pw.2 ++ (extra ++ rest)))))))))))) L hpn (by omega)
    have a2 := readUint8_lim ver (fl :: kh :: kl :: (cid.1 ++ (cid.2 ++ (wt.1 ++ (wt.2 ++ (wm.1 ++ (wm.2 ++ (un.1 ++ (un.2 ++ (pw.1 ++ (pw.2 ++ (extra ++ rest)))))))))))) (L - (pn.1.length + pn.2.length)) (by omega)
    have a3 := readUint8_lim fl (kh :: kl :: (cid.1 ++ (cid.2 ++ (wt.1 ++ (wt.2 ++ (wm.1 ++ (wm.2 ++ (un.1 ++ (un.2 ++ (pw.1 ++ (pw.2 ++ (extra ++ rest)))))))))))) ((L - (pn.1.length + pn.2.length)) - 1) (by omega)
    have a4 := readUint16_lim kh kl (cid.1 ++ (cid.2 ++ (wt.1 ++ (wt.2 ++ (wm.1 ++ (wm.2 ++ (un.1 ++ (un.2 ++ (pw.1 ++ (pw.2 ++ (extra ++ rest))))))))))) (((L - (pn.1.length + pn.2.length)) - 1) - 1) (by omega)
    rw [uint16_bigEndian kh kl hkh hkl] at a4
    have a5 := readStr_lim cid.1 cid.2 (wt.1 ++ (wt.2 ++ (wm.1 ++ (wm.2 ++ (un.1 ++ (un.2 ++ (pw.1 ++ (pw.2 ++ (extra ++ rest))))))))) ((((L - (pn.1.length + pn.2.length)) - 1) - 1) - 2) hcid (by omega)
    have a6 := readStr_lim wt.1 wt.2 (wm.1 ++ (wm.2 ++ (un.1 ++ (un.2 ++ (pw.1 ++ (pw.2 ++ (extra ++ rest))))))) (((((L - (pn.1.length + pn.2.length)) - 1) - 1) - 2) - (cid.1.length + cid.2.length)) hwt (by omega)
    have a7 := readStr_lim wm.1 wm.2 (un.1 ++ (un.2 ++ (pw.1 ++ (pw.2 ++ (extra ++ rest))))) ((((((L - (pn.1.length + pn.2.length)) - 1) - 1) - 2) - (cid.1.length + cid.2.length)) - (wt.1.length + wt.2.length)) hwm (by omega)
    have a8 := readStr_lim un.1 un.2 (pw.1 ++ (pw.2 ++ (extra ++ rest))) (((((((L - (pn.1.length + pn.2.length)) - 1) - 1) - 2) - (cid.1.length + cid.2.length)) - (wt.1.length + wt.2.length)) - (wm.1.length + wm.2.length)) hun (by omega)
    have a9 := readStr_lim pw.1 pw.2 (extra ++ rest) ((((((((L - (pn.1.length + pn.2.length)) - 1) - 1) - 2) - (cid.1.length + cid.2.length)) - (wt.1.length + wt.2.length)) - (wm.1.length + wm.2.length)) - (un.1.length + un.2.length)) hpw (by omega)
    have hN : (((((((((L - (pn.1.length + pn.2.length)) - 1) - 1) - 2) - (cid.1.length + cid.2.length)) - (wt.1.length + wt.2.length)) - (wm.1.length + wm.2.length)) - (un.1.length + un.2.length)) - (pw.1.length + pw.2.length)) = extra.length := by omega
    rw [hN] at a9
    simp only [MsgConnect.readFrom, LimitedReader, connectWire, a1, a2, a3, a4, a5, a6, a7,
      a8, a9, Reader.limitN, Option.getD_some]
    cases extra <;> simp
  exact ⟨key f1, key f2⟩

theorem Connect_decode_witness :
    MsgConnect.readFrom {}
        (connectWire ([0x02], [0x4D, 0x51]) 3 0x00 0x00 0x3C ([0x01], [0x63]) ([0x00], [])
          ([0x00], []) ([0x00], []) ([0x00], []) ([] ++ [0xC0])) 0x10 13
        = (({ H := 0x10, ProtName := [0x4D, 0x51], ProtVer := 3, flags := 0x00,
              KeepAlive := 0x00 * 256 + 0x3C, ClientId := [0x63], WillTopic := [],
              WillMsg := [], UserName := [], Password := [] },
            if ([] : List Nat) = [] then none else some Error.ErrWrongLength), [] ++ [0xC0])
      ∧ MsgConnect.readFrom {}
        (connectWire ([0x02], [0x4D, 0x51]) 3 0xC2 0x00 0x3C ([0x01], [0x63]) ([0x00], [])
          ([0x00], []) ([0x00], []) ([0x00], []) ([] ++ [0xC0])) 0x10 13
        = (({ H := 0x10, ProtName := [0x4D, 0x51], ProtVer := 3, flags := 0xC2,
              KeepAlive := 0x00 * 256 + 0x3C, ClientId := [0x63], WillTopic := [],
              WillMsg := [], UserName := [], Password := [] },
            if ([] : List Nat) = [] then none else some Error.ErrWrongLength), [] ++ [0xC0]) :=
  Connect_decode {} 0x10 3 0x00 0xC2 0x00 0x3C 13 ([0x02], [0x4D, 0x51]) ([0x01], [0x63])
    ([0x00], []) ([0x00], []) ([0x00], []) ([0x00], []) [] [0xC0] (by decide) (by decide)
    (by decide) (by decide) (by decide) (by decide) (by decide) (by decide) (by decide)

/-- C29 (does not hold on the code): the Connect flag accessors. `SetCleanSession(true)`
on the flags `0x00` gives `0x08`: `CleanSession()` stays false and the will QoS becomes 1.
`SetWillQos(1)` on the flags `0x10` (will QoS 2) gives `0x18`, whose will QoS is 3.
`SetWillQos(0)` on the flags `0x02` gives `0x00`: the clean-session flag is lost. -/
theorem connect_flag_setters_fail :
    (MsgConnect.SetCleanSession { flags := 0x00 } true).flags = 0x08
      ∧ MsgConnect.CleanSession (MsgConnect.SetCleanSession { flags := 0x00 } true) = false
      ∧ MsgConnect.WillQos { flags := 0x00 } = (0, none)
      ∧ MsgConnect.WillQos (MsgConnect.SetCleanSession { flags := 0x00 } true) = (1, none)
      ∧ (MsgConnect.SetWillQos { flags := 0x10 } QosAtLeastOnce).1.flags = 0x18
      ∧ MsgConnect.WillQos (MsgConnect.SetWillQos { flags := 0x10 } QosAtLeastOnce).1
          = (3, some Error.ErrBadQosLevel)
      ∧ MsgConnect.CleanSession { flags := 0x02 } = true
      ∧ MsgConnect.CleanSession (MsgConnect.SetWillQos { flags := 0x02 } QosAtMostOnce).1
          = false := by
  decide

/-- C30 (does not hold on the code): bounded buffers. On the stream
`0x80 0x06 0x00 0x01 0xFF 0xFF 0xFF 0x7F` the header and the remaining length 6 pass
`Header.Validate`, the Subscribe decoder reads the message id and calls `readStr` on the
bounded reader with 4 bytes left; `readStr` decodes the length prefix 268,435,455 and
allocates a buffer of that size, far above 10,240, before the read fails with `io.EOF`. -/
theorem readStr_buffer_exceeds_bound :
    Header.Validate 0x80 6 = none
      ∧ readUint16 (LimitedReader [0x00, 0x01, 0xFF, 0xFF, 0xFF, 0x7F] 6)
          = ((1, none), ⟨[0xFF, 0xFF, 0xFF, 0x7F], some 4⟩)
      ∧ readStr.bufSize ⟨[0xFF, 0xFF, 0xFF, 0x7F], some 4⟩ = some 268435455
      ∧ DefaultMaxLen < 268435455
      ∧ Read [0x80, 0x06, 0x00, 0x01, 0xFF, 0xFF, 0xFF, 0x7F]
          = Run.ret ((none, some Error.EOF), []) := by
  decide

/-- C31 (does not hold on the code): fail-fast encoding without partial result. For a
Publish message with header `0x30`, an empty topic and a content of 268,435,456 bytes,
`Write` to an empty destination returns the out-of-range error of the length encoding,
and the destination then holds the header byte `0x30`: the header is written before the
length is encoded. `writeMsgData` does the same for a payload of that size, whereas
`Header.bytes` fails without giving any byte. The bad-QoS error of a Publish header
(`0x36`) is returned before any byte is written. -/
theorem Write_partial_on_length_error :
    Write [] (Msg.MsgPublish
        { H := 0x30, Topic := [], MsgId := 0, Content := List.replicate 268435456 0 })
      = (some Error.len4OutOfRange, [0x30])
    ∧ writeMsgData [] 0xA0 (List.replicate 268435456 0)
      = (some Error.len4OutOfRange, [0xA0])
    ∧ Header.bytes 0x30 268435456 = ([], some Error.len4OutOfRange)
    ∧ Write [] (Msg.MsgPublish { H := 0x36, Topic := [0x61], MsgId := 1, Content := [0x62] })
      = (some Error.ErrBadQosLevel, []) := by
  exact ⟨Write_Publish_tooLong (List.replicate 268435456 0) (List.length_replicate _ _),
    writeMsgData_nil_tooLong 0xA0 (List.replicate 268435456 0) (List.length_replicate _ _),
    Header_bytes_tooLong, by decide⟩

/-- C32 (does not hold on the code): `Read` on accepted headers. For the header byte
`0x00` and the remaining length 0, `Header.Validate` returns nil, `Header.Type` is 0,
`msgRegistry` has no constructor for it, and `Read` on the stream `0x00 0x00` calls the
nil function of the missing entry: it panics instead of returning a message or an
error. -/
theorem Read_panics_on_type_zero :
    Header.Validate 0x00 0 = none
      ∧ msgRegistry (Header.Type 0x00) = none
      ∧ Read [0x00, 0x00] = Run.panic := by
  decide

/-- C33: `readLen4` does not require minimal encodings: on `0x80 0x00` it succeeds with
0 after two bytes and on `0xFF 0x80 0x80 0x00` with 127 after four bytes, while the
minimal encodings of 0 and 127 are the single bytes `0x00` and `0x7F`, which decode to
the same values; and every value `readLen4` returns, on any reader, is at most
268,435,455. -/
theorem readLen4_accepts_non_minimal :
    readLen4 ⟨[0x80, 0x00], none⟩ = ((0, none), ⟨[], none⟩)
      ∧ specEncode 0 = [0x00]
      ∧ readLen4 ⟨specEncode 0, none⟩ = ((0, none), ⟨[], none⟩)
      ∧ readLen4 ⟨[0xFF, 0x80, 0x80, 0x00], none⟩ = ((127, none), ⟨[], none⟩)
      ∧ specEncode 127 = [0x7F]
      ∧ readLen4 ⟨specEncode 127, none⟩ = ((127, none), ⟨[], none⟩)
      ∧ ∀ r : Reader, (readLen4 r).1.1 ≤ 268435455 := by
  refine ⟨by decide, by decide, by decide, by decide, by decide, by decide, ?_⟩
  intro r
  have h := readLen4Loop_val_lt 4 0 0 r (by norm_num) (by norm_num)
  simp only [readLen4]
  norm_num at h
  omega

set_option maxRecDepth 100000 in
/-- C34 (does not hold on the code): the header QoS of package msg. On the header byte
`0x10` (type 1, no flags) `SetQos(1)` gives `0x12`, and `Qos()` then returns 9 with
`ErrBadQosLevel`: it is `byte0 >> 1`, which takes in the type and dup bits, not only the
bits 2-1. With the dup bit alone (`0x08`), `SetQos(2)` followed by `Qos()` gives 6. For
a header byte and a valid QoS `q`, `SetQos(q)` followed by `Qos()` returns `q` without
error exactly when the type and dup bits are all zero. -/
theorem msg_header_qos_reads_type_bits :
    (msg.Header.SetQos { byte0 := 0x10 } msg.QosAtLeastOnce).1.byte0 = 0x12
      ∧ msg.Header.Qos (msg.Header.SetQos { byte0 := 0x10 } msg.QosAtLeastOnce).1
          = (9, some Error.ErrBadQosLevel)
      ∧ msg.Header.Qos (msg.Header.SetQos { byte0 := 0x08 } msg.QosExactlyOnce).1
          = (6, some Error.ErrBadQosLevel)
      ∧ msg.Header.Qos (msg.Header.SetQos { byte0 := 0x01 } msg.QosExactlyOnce).1
          = (2, none)
      ∧ ∀ b < 256, ∀ q ≤ 2,
          (msg.Header.Qos (msg.Header.SetQos { byte0 := b } q).1 = (q, none) ↔ b < 8) := by
  decide

end mqttgo
